import Mathlib

/-!
Verification of the Spark-Tool project-assignment core.

The repository assigns students to capacity-limited projects by building an
integer program (binary assignment variables, exactly-one constraints,
capacity ceilings, minimum-occupancy floors, optional discussion-section
constraints) and handing it to an external MILP solver.  Two variants exist:
`assignment.py` (base model) and `external_assign.py` (base model plus the
section extension).  Below, the input document, the constructed optimization
model, the objective, and the result-extraction logic are embedded as
executable Lean definitions translated from the Python source; the external
solver is an opaque parameter returning a terminal status together with a
0/1 valuation of the decision variables.
-/

/-- A ranked project choice of one student (`choices` entries of the input
document): project identifier, display name, and 1-based rank. -/
structure Choice where
  projectId : String
  projectName : String
  rank : Int
deriving DecidableEq, Repr

/-- One student of the input roster.  Fields that the Python code reads with
`dict.get` (and which may therefore be absent from the JSON document) are
modelled as `Option`. -/
structure Student where
  prefId : String
  buid : String
  studentName : String
  choices : Option (List Choice)
  sectionId : Option String
  sectionIds : Option (List String)
deriving DecidableEq, Repr

/-- The `options` object of the input document; both keys are read with
`dict.get` and default to `0` resp. `1` when absent. -/
structure Options where
  minTeamSize : Option Int
  maxSectionsPerTeam : Option Int
deriving DecidableEq, Repr

/-- The top-level input document.  `assign` checks for the presence of the
three top-level keys, so each is an `Option`.  The `capacities` dict is a
list of (projectId, capacity) pairs with distinct keys. -/
structure Doc where
  students : Option (List Student)
  capacities : Option (List (String × Int))
  options : Option Options
deriving DecidableEq, Repr

/-- Decision-variable keys of the constructed model: `x` (student assigned to
project), `u` (student unassigned), `y` (project used), `w` (student assigned
to project via section), `z` (project draws from section). -/
inductive VarKey where
  | x (sid pid : String)
  | u (sid : String)
  | y (pid : String)
  | w (sid pid sec : String)
  | z (pid sec : String)
deriving DecidableEq, Repr

/-- Comparison sense of a linear constraint. -/
inductive Cmp where
  | le
  | ge
  | eq
deriving DecidableEq, Repr

/-- A linear constraint in the normal form `Σ coeff·var  cmp  rhs`. -/
structure Constr where
  terms : List (Int × VarKey)
  cmp : Cmp
  rhs : Int
deriving DecidableEq, Repr

/-- The constructed optimization model: the created decision variables (in
creation order, with multiplicity of the `addVar` calls), the constraints (in
creation order), and the maximized linear objective. -/
structure Model where
  vars : List VarKey
  constrs : List Constr
  objective : List (Int × VarKey)
deriving DecidableEq, Repr

/-- A terminal solver report: the raw status code, the 0/1 valuation of the
decision variables (a binary variable's value `.X > 0.5` is modelled as
`true`), and the reported objective value. -/
structure SolverResult where
  status : Int
  val : VarKey → Bool
  objVal : Int

/-- Gurobi terminal status code `GRB.OPTIMAL`. -/
def GRB.OPTIMAL : Int := 2

/-- Gurobi terminal status code `GRB.SUBOPTIMAL`. -/
def GRB.SUBOPTIMAL : Int := 13

/-- 0/1 value of a binary decision variable. -/
def b2i (b : Bool) : Int := if b then 1 else 0

/-- Value of a linear form under a 0/1 valuation. -/
def evalTerms (σ : VarKey → Bool) (ts : List (Int × VarKey)) : Int :=
  (ts.map (fun t => t.1 * b2i (σ t.2))).sum

/-- Whether a valuation satisfies one constraint. -/
def satisfies (σ : VarKey → Bool) (c : Constr) : Bool :=
  match c.cmp with
  | Cmp.le => decide (evalTerms σ c.terms ≤ c.rhs)
  | Cmp.ge => decide (c.rhs ≤ evalTerms σ c.terms)
  | Cmp.eq => decide (evalTerms σ c.terms = c.rhs)

/-- Whether a valuation satisfies every constraint of a model. -/
def feasibleB (M : Model) (σ : VarKey → Bool) : Bool :=
  M.constrs.all (fun c => satisfies σ c)

/-- Objective value of a valuation in a model. -/
def objValue (M : Model) (σ : VarKey → Bool) : Int :=
  evalTerms σ M.objective

/-- `v` is the optimal objective value of model `M`: attained by some
feasible valuation and an upper bound on every feasible valuation. -/
def IsOptimalValue (M : Model) (v : Int) : Prop :=
  (∃ σ, feasibleB M σ = true ∧ objValue M σ = v) ∧
    ∀ σ, feasibleB M σ = true → objValue M σ ≤ v

/-- The valuation `σ` is optimal for `M`. -/
def OptimalFor (M : Model) (σ : VarKey → Bool) : Prop :=
  ∀ τ, feasibleB M τ = true → objValue M τ ≤ objValue M σ

/-- `student_choices[sid]`: choices of the student keyed by `sid` in the
Python dict (built by iterating the roster, so a later student with the same
`prefId` overwrites an earlier one; lookup is last-wins). -/
def choicesOf (students : List Student) (sid : String) : List Choice :=
  match (students.filter (fun s => s.prefId == sid)).getLast? with
  | some s => s.choices.getD []
  | none => []

/-- Flattened section-eligibility list of one roster entry: the primary
`sectionId` (when present) followed by the `sectionIds` list (when present). -/
def sectionsOfStudent (s : Student) : List String :=
  (match s.sectionId with
   | some sec => [sec]
   | none => []) ++ s.sectionIds.getD []

/-- `student_sections[sid]`: last-wins dict lookup of a student's flattened
section list. -/
def studentSectionsOf (students : List Student) (sid : String) : List String :=
  match (students.filter (fun s => s.prefId == sid)).getLast? with
  | some s => sectionsOfStudent s
  | none => []

/-- The section universe: the set of all sections appearing in the values of
the `student_sections` dict (one value per distinct `prefId`). -/
def sectionUniverse (students : List Student) : List String :=
  (((students.map Student.prefId).dedup).flatMap
    (fun sid => studentSectionsOf students sid)).dedup

/-- `(sid, pid) ∈ x`: the pair has an assignment variable, i.e. `pid` occurs
in the choice list of the student keyed `sid`. -/
def hasChoice (students : List Student) (sid pid : String) : Bool :=
  (choicesOf students sid).any (fun c => c.projectId == pid)

/-- The `x` terms `Σ x[(sid, pid)]` of a project's capacity constraints:
one unit term per occurrence of a `prefId` in `student_ids` whose keyed
student ranked `pid`. -/
def xTermsFor (students : List Student) (pid : String) : List (Int × VarKey) :=
  ((students.map Student.prefId).filter (fun sid => hasChoice students sid pid)).map
    (fun sid => ((1 : Int), VarKey.x sid pid))

/-- The effective minimum occupancy: `minTeamSize`, clamped to 0 whenever
`minTeamSize >= capacity` (translation of the `if minimum_capacity >=
capacities[project_id]` branch). -/
def effectiveMin (mt cap : Int) : Int :=
  if cap ≤ mt then 0 else mt

/-- Exactly-one constraint of one student: `Σ x[(sid, p)] + u[sid] == 1`,
the sum running over the student's choice list with multiplicity. -/
def exactlyOneConstr (students : List Student) (sid : String) : Constr :=
  ⟨((choicesOf students sid).map (fun c => ((1 : Int), VarKey.x sid c.projectId))) ++
      [((1 : Int), VarKey.u sid)],
    Cmp.eq, 1⟩

/-- Capacity ceiling of one project: `Σ x[(s, pid)] <= cap * y[pid]`. -/
def maxCapConstr (students : List Student) (pid : String) (cap : Int) : Constr :=
  ⟨xTermsFor students pid ++ [(-cap, VarKey.y pid)], Cmp.le, 0⟩

/-- Minimum occupancy of one project: `Σ x[(s, pid)] >= min_capacity * y[pid]`
with the clamped `min_capacity`. -/
def minCapConstr (students : List Student) (pid : String) (cap mt : Int) : Constr :=
  ⟨xTermsFor students pid ++ [(-(effectiveMin mt cap), VarKey.y pid)], Cmp.ge, 0⟩

/-- The per-student exactly-one constraints, in roster order (a duplicated
`prefId` yields a duplicated constraint, as in the Python loop). -/
def assignConstrsOf (students : List Student) : List Constr :=
  (students.map Student.prefId).map (fun sid => exactlyOneConstr students sid)

/-- Capacity ceiling and minimum occupancy per project, in capacity-dict
order. -/
def capacityConstrsOf (students : List Student) (caps : List (String × Int))
    (mt : Int) : List Constr :=
  caps.flatMap (fun pc =>
    [maxCapConstr students pc.1 pc.2, minCapConstr students pc.1 pc.2 mt])

/-- Link constraints `Σ_sec w[(sid, pid, sec)] == x[(sid, pid)]`, one per
(roster occurrence, choice entry), the sum running over the student's section
list with multiplicity. -/
def linkXWConstrs (students : List Student) : List Constr :=
  (students.map Student.prefId).flatMap (fun sid =>
    (choicesOf students sid).map (fun c =>
      ⟨((studentSectionsOf students sid).map
          (fun sec => ((1 : Int), VarKey.w sid c.projectId sec))) ++
          [((-1 : Int), VarKey.x sid c.projectId)],
        Cmp.eq, 0⟩))

/-- `(sid, pid, sec) ∈ w`: the triple has a section-placement variable. -/
def eligibleFor (students : List Student) (sid pid sec : String) : Bool :=
  hasChoice students sid pid && (studentSectionsOf students sid).contains sec

/-- The section-usage link constraints of one (project, section) pair: either
the forced `z == 0` (no eligible student) or
`Σ w <= cap * z` together with `z <= y`. -/
def linkZConstrs (students : List Student) (pid : String) (cap : Int)
    (sec : String) : List Constr :=
  let studs := (students.map Student.prefId).filter
    (fun sid => eligibleFor students sid pid sec)
  if studs.isEmpty then
    [⟨[((1 : Int), VarKey.z pid sec)], Cmp.eq, 0⟩]
  else
    [⟨(studs.map (fun sid => ((1 : Int), VarKey.w sid pid sec))) ++
        [(-cap, VarKey.z pid sec)], Cmp.le, 0⟩,
      ⟨[((1 : Int), VarKey.z pid sec), ((-1 : Int), VarKey.y pid)], Cmp.le, 0⟩]

/-- Section count cap of one project:
`Σ_sec z[(pid, sec)] <= max_sections_per_team * y[pid]`. -/
def maxSectionsConstr (students : List Student) (pid : String) (ms : Int) : Constr :=
  ⟨((sectionUniverse students).map (fun sec => ((1 : Int), VarKey.z pid sec))) ++
      [(-ms, VarKey.y pid)], Cmp.le, 0⟩

/-- All constraints of the section extension, in creation order. -/
def sectionConstrsOf (students : List Student) (caps : List (String × Int))
    (ms : Int) : List Constr :=
  linkXWConstrs students ++
    caps.flatMap (fun pc =>
      (sectionUniverse students).flatMap
        (fun sec => linkZConstrs students pc.1 pc.2 sec)) ++
    caps.map (fun pc => maxSectionsConstr students pc.1 ms)

/-- Preference-score objective terms of one student:
`x[(sid, p)] * (len(choices) - rank + 1)` per choice entry (duplicated
entries contribute twice, as the Python objective iterates the choice
list). -/
def choiceScoreTerms (students : List Student) (sid : String) : List (Int × VarKey) :=
  (choicesOf students sid).map (fun c =>
    (((choicesOf students sid).length : Int) - c.rank + 1, VarKey.x sid c.projectId))

/-- All preference-score objective terms, grouped by roster order. -/
def objTermsOf (students : List Student) : List (Int × VarKey) :=
  (students.map Student.prefId).flatMap (fun sid => choiceScoreTerms students sid)

/-- The penalty terms `- unassigned_penalty * u[sid]` of the objective. -/
def penaltyTermsOf (students : List Student) (p : Int) : List (Int × VarKey) :=
  (students.map Student.prefId).map (fun sid => (-p, VarKey.u sid))

/-- `max(len(student_choices[s]) for s in student_ids)`: Python's `max`
raises `ValueError` on an empty sequence. -/
def maxWeightOf (students : List Student) : Except String Int :=
  match students.map (fun s => ((choicesOf students s.prefId).length : Int)) with
  | [] => Except.error "max() arg is an empty sequence"
  | a :: rest => Except.ok (rest.foldl max a)

/-- The assignment variables, in `addVar` order. -/
def xVarsOf (students : List Student) : List VarKey :=
  (students.map Student.prefId).flatMap (fun sid =>
    (choicesOf students sid).map (fun c => VarKey.x sid c.projectId))

/-- The per-student unassigned indicators, in `addVar` order. -/
def uVarsOf (students : List Student) : List VarKey :=
  (students.map Student.prefId).map (fun sid => VarKey.u sid)

/-- The per-project used indicators, in `addVar` order. -/
def yVarsOf (caps : List (String × Int)) : List VarKey :=
  caps.map (fun pc => VarKey.y pc.1)

/-- The section-placement variables, in `addVar` order. -/
def wVarsOf (students : List Student) : List VarKey :=
  (students.map Student.prefId).flatMap (fun sid =>
    (choicesOf students sid).flatMap (fun c =>
      (studentSectionsOf students sid).map (fun sec => VarKey.w sid c.projectId sec)))

/-- The per-(project, section) usage indicators, in `addVar` order. -/
def zVarsOf (caps : List (String × Int)) (students : List Student) : List VarKey :=
  caps.flatMap (fun pc => (sectionUniverse students).map (fun sec => VarKey.z pc.1 sec))

/-- Model construction of `external_assign.assign`: base variables and
constraints, plus the section extension whenever the section universe is
non-empty; fails exactly where the Python code raises (`max()` over the empty
roster). -/
def ExtAssign.buildModel (students : List Student) (caps : List (String × Int))
    (mt ms : Int) : Except String Model :=
  match maxWeightOf students with
  | Except.error e => Except.error e
  | Except.ok w =>
    let secs := sectionUniverse students
    Except.ok
      { vars := xVarsOf students ++ uVarsOf students ++ yVarsOf caps ++
          (if secs.isEmpty then [] else wVarsOf students ++ zVarsOf caps students)
        constrs := assignConstrsOf students ++ capacityConstrsOf students caps mt ++
          (if secs.isEmpty then [] else sectionConstrsOf students caps ms)
        objective := objTermsOf students ++
          penaltyTermsOf students ((students.length : Int) * w + 1) }

/-- Model construction of `assignment.assign`: the base model only. -/
def BaseAssign.buildModel (students : List Student) (caps : List (String × Int))
    (mt : Int) : Except String Model :=
  match maxWeightOf students with
  | Except.error e => Except.error e
  | Except.ok w =>
    Except.ok
      { vars := xVarsOf students ++ uVarsOf students ++ yVarsOf caps
        constrs := assignConstrsOf students ++ capacityConstrsOf students caps mt
        objective := objTermsOf students ++
          penaltyTermsOf students ((students.length : Int) * w + 1) }

/-- An entry of the output `assigned` list. -/
structure AssignedEntry where
  prefId : String
  buid : String
  studentName : String
  projectId : String
  projectName : String
  rank : Int
deriving DecidableEq, Repr

/-- An entry of the output `unassigned` list. -/
structure UnassignedEntry where
  prefId : String
  buid : String
  studentName : String
  reason : String
deriving DecidableEq, Repr

/-- The output document. -/
structure Output where
  assigned : List AssignedEntry
  unassigned : List UnassignedEntry
  totalCost : Option Int
deriving DecidableEq, Repr

/-- Result extraction for one roster entry in `external_assign.assign`: scan
the student's choice list in order for the first pair whose `x` value is set,
otherwise report unassigned (with the defensive reason when the `u` indicator
is not set either). -/
def ExtAssign.extractOne (students : List Student) (val : VarKey → Bool)
    (st : Student) : Sum AssignedEntry UnassignedEntry :=
  match (choicesOf students st.prefId).find?
      (fun c => val (VarKey.x st.prefId c.projectId)) with
  | some c => Sum.inl ⟨st.prefId, st.buid, st.studentName, c.projectId, c.projectName, c.rank⟩
  | none =>
    if val (VarKey.u st.prefId) then
      Sum.inr ⟨st.prefId, st.buid, st.studentName,
        "No available capacity for ranked choices"⟩
    else
      Sum.inr ⟨st.prefId, st.buid, st.studentName,
        "Inconsistent assignment. Not assigned to a project but not explicitly marked unassigned."⟩

/-- Result extraction of `external_assign.assign` over the whole roster. -/
def ExtAssign.extract (students : List Student) (r : SolverResult) : Output :=
  ⟨students.filterMap (fun st => (ExtAssign.extractOne students r.val st).getLeft?),
    students.filterMap (fun st => (ExtAssign.extractOne students r.val st).getRight?),
    some r.objVal⟩

/-- Result extraction for one roster entry in `assignment.assign`; identical
to the external variant except for the defensive reason string. -/
def BaseAssign.extractOne (students : List Student) (val : VarKey → Bool)
    (st : Student) : Sum AssignedEntry UnassignedEntry :=
  match (choicesOf students st.prefId).find?
      (fun c => val (VarKey.x st.prefId c.projectId)) with
  | some c => Sum.inl ⟨st.prefId, st.buid, st.studentName, c.projectId, c.projectName, c.rank⟩
  | none =>
    if val (VarKey.u st.prefId) then
      Sum.inr ⟨st.prefId, st.buid, st.studentName,
        "No available capacity for ranked choices"⟩
    else
      Sum.inr ⟨st.prefId, st.buid, st.studentName,
        "Inconsistent assignment. Not assigned but not explicitly marked unassigned."⟩

/-- Result extraction of `assignment.assign` over the whole roster. -/
def BaseAssign.extract (students : List Student) (r : SolverResult) : Output :=
  ⟨students.filterMap (fun st => (BaseAssign.extractOne students r.val st).getLeft?),
    students.filterMap (fun st => (BaseAssign.extractOne students r.val st).getRight?),
    some r.objVal⟩

/-- The all-unassigned output returned when the terminal status is not
accepted. -/
def degradedOutput (students : List Student) (status : Int) : Output :=
  ⟨[],
    students.map (fun s =>
      ⟨s.prefId, s.buid, s.studentName,
        "ILP infeasible or no solution (status " ++ toString status ++ ")"⟩),
    none⟩

/-- `external_assign.assign`: field check, model construction, one opaque
solve, status classification, result extraction. -/
def ExtAssign.assign (doc : Doc) (solver : Model → SolverResult) :
    Except String Output :=
  match doc.students, doc.capacities, doc.options with
  | some students, some caps, some opts =>
    match ExtAssign.buildModel students caps (opts.minTeamSize.getD 0)
        (opts.maxSectionsPerTeam.getD 1) with
    | Except.error e => Except.error e
    | Except.ok M =>
      let r := solver M
      if r.status = GRB.OPTIMAL ∨ r.status = GRB.SUBOPTIMAL then
        Except.ok (ExtAssign.extract students r)
      else
        Except.ok (degradedOutput students r.status)
  | _, _, _ => Except.error "Input data doesn\x27t have all information needed."

/-- `assignment.assign`: same pipeline over the base model. -/
def BaseAssign.assign (doc : Doc) (solver : Model → SolverResult) :
    Except String Output :=
  match doc.students, doc.capacities, doc.options with
  | some students, some caps, some opts =>
    match BaseAssign.buildModel students caps (opts.minTeamSize.getD 0) with
    | Except.error e => Except.error e
    | Except.ok M =>
      let r := solver M
      if r.status = GRB.OPTIMAL ∨ r.status = GRB.SUBOPTIMAL then
        Except.ok (BaseAssign.extract students r)
      else
        Except.ok (degradedOutput students r.status)
  | _, _, _ => Except.error "Input data doesn\x27t have all information needed."

/-! ### Basic lemmas about valuations, linear forms, and constraints -/

theorem b2i_nonneg (b : Bool) : 0 ≤ b2i b := by
  cases b <;> simp [b2i]

theorem b2i_le_one (b : Bool) : b2i b ≤ 1 := by
  cases b <;> simp [b2i]

theorem b2i_false_iff (b : Bool) : b2i b = 0 ↔ b = false := by
  cases b <;> simp [b2i]

theorem b2i_true_iff (b : Bool) : b2i b = 1 ↔ b = true := by
  cases b <;> simp [b2i]

theorem evalTerms_append (σ : VarKey → Bool) (l₁ l₂ : List (Int × VarKey)) :
    evalTerms σ (l₁ ++ l₂) = evalTerms σ l₁ + evalTerms σ l₂ := by
  simp [evalTerms]

theorem evalTerms_map_one {α : Type} (σ : VarKey → Bool) (f : α → VarKey) (l : List α) :
    evalTerms σ (l.map (fun a => ((1 : Int), f a))) =
      (l.map (fun a => b2i (σ (f a)))).sum := by
  simp [evalTerms, List.map_map, Function.comp_def]

theorem evalTerms_map_coeff {α : Type} (σ : VarKey → Bool) (c : Int) (f : α → VarKey)
    (l : List α) :
    evalTerms σ (l.map (fun a => (c, f a))) =
      c * (l.map (fun a => b2i (σ (f a)))).sum := by
  induction l with
  | nil => simp [evalTerms]
  | cons a l ih =>
    simp [evalTerms, List.map_cons] at ih ⊢
    rw [ih]
    ring

theorem evalTerms_single (σ : VarKey → Bool) (c : Int) (k : VarKey) :
    evalTerms σ [(c, k)] = c * b2i (σ k) := by
  simp [evalTerms]

theorem evalTerms_flatMap {α : Type} (σ : VarKey → Bool) (f : α → List (Int × VarKey))
    (l : List α) :
    evalTerms σ (l.flatMap f) = (l.map (fun a => evalTerms σ (f a))).sum := by
  induction l with
  | nil => simp [evalTerms]
  | cons a l ih => simp [List.flatMap_cons, evalTerms_append, ih]

theorem sum_b2i_nonneg {α : Type} (g : α → Bool) (l : List α) :
    0 ≤ (l.map (fun a => b2i (g a))).sum := by
  induction l with
  | nil => simp
  | cons a l ih =>
    simp only [List.map_cons, List.sum_cons]
    have := b2i_nonneg (g a)
    omega

theorem sum_b2i_le_length {α : Type} (g : α → Bool) (l : List α) :
    (l.map (fun a => b2i (g a))).sum ≤ (l.length : Int) := by
  induction l with
  | nil => simp
  | cons a l ih =>
    simp only [List.map_cons, List.sum_cons, List.length_cons]
    have := b2i_le_one (g a)
    push_cast
    omega

theorem sum_b2i_eq_zero_iff {α : Type} (g : α → Bool) (l : List α) :
    (l.map (fun a => b2i (g a))).sum = 0 ↔ ∀ a ∈ l, g a = false := by
  induction l with
  | nil => simp
  | cons a l ih =>
    simp only [List.map_cons, List.sum_cons, List.mem_cons]
    constructor
    · intro h
      have h1 := b2i_nonneg (g a)
      have h2 := sum_b2i_nonneg g l
      have ha : b2i (g a) = 0 := by omega
      have hl : (l.map (fun a => b2i (g a))).sum = 0 := by omega
      exact fun b hb => hb.elim (fun hba => hba ▸ (b2i_false_iff _).mp ha)
        (fun hbl => (ih.mp hl) b hbl)
    · intro h
      have ha : g a = false := h a (Or.inl rfl)
      have hl : (l.map (fun a => b2i (g a))).sum = 0 :=
        ih.mpr (fun b hb => h b (Or.inr hb))
      rw [(b2i_false_iff _).mpr ha, hl]
      omega

theorem one_le_sum_b2i {α : Type} (g : α → Bool) (l : List α) (a : α)
    (ha : a ∈ l) (hg : g a = true) :
    1 ≤ (l.map (fun a => b2i (g a))).sum := by
  induction l with
  | nil => simp at ha
  | cons b l ih =>
    simp only [List.map_cons, List.sum_cons]
    rcases List.mem_cons.mp ha with h | h
    · subst h
      have h1 := sum_b2i_nonneg g l
      rw [(b2i_true_iff _).mpr hg]
      omega
    · have h1 := ih h
      have h2 := b2i_nonneg (g b)
      omega

theorem satisfies_le_iff (σ : VarKey → Bool) (ts : List (Int × VarKey)) (r : Int) :
    satisfies σ ⟨ts, Cmp.le, r⟩ = true ↔ evalTerms σ ts ≤ r := by
  simp [satisfies]

theorem satisfies_ge_iff (σ : VarKey → Bool) (ts : List (Int × VarKey)) (r : Int) :
    satisfies σ ⟨ts, Cmp.ge, r⟩ = true ↔ r ≤ evalTerms σ ts := by
  simp [satisfies]

theorem satisfies_eq_iff (σ : VarKey → Bool) (ts : List (Int × VarKey)) (r : Int) :
    satisfies σ ⟨ts, Cmp.eq, r⟩ = true ↔ evalTerms σ ts = r := by
  simp [satisfies]

theorem feasibleB_iff (M : Model) (σ : VarKey → Bool) :
    feasibleB M σ = true ↔ ∀ c ∈ M.constrs, satisfies σ c = true := by
  simp [feasibleB, List.all_eq_true]

theorem le_foldl_max (l : List Int) (a : Int) : a ≤ l.foldl max a := by
  induction l generalizing a with
  | nil => simp
  | cons b l ih =>
    simp only [List.foldl_cons]
    exact le_trans (le_max_left a b) (ih (max a b))

theorem mem_le_foldl_max (l : List Int) (a x : Int) (hx : x ∈ l) :
    x ≤ l.foldl max a := by
  induction l generalizing a with
  | nil => simp at hx
  | cons b l ih =>
    simp only [List.foldl_cons]
    rcases List.mem_cons.mp hx with h | h
    · rw [h]
      exact le_trans (le_max_right a b) (le_foldl_max l (max a b))
    · exact ih (max a b) h

theorem foldl_max_eq_or_mem (l : List Int) (a : Int) :
    l.foldl max a = a ∨ l.foldl max a ∈ l := by
  induction l generalizing a with
  | nil => simp
  | cons b l ih =>
    simp only [List.foldl_cons, List.mem_cons]
    rcases ih (max a b) with h | h
    · rcases max_choice a b with hm | hm
      · exact Or.inl (h.trans hm)
      · exact Or.inr (Or.inl (h.trans hm))
    · exact Or.inr (Or.inr h)

/-! ### Characterization of `maxWeightOf` -/

theorem maxWeightOf_ok (students : List Student) (hne : students ≠ []) :
    ∃ w, maxWeightOf students = Except.ok w ∧
      (∀ s ∈ students, ((choicesOf students s.prefId).length : Int) ≤ w) ∧
      (∃ s ∈ students, ((choicesOf students s.prefId).length : Int) = w) := by
  unfold maxWeightOf
  cases hmap : students.map (fun s => ((choicesOf students s.prefId).length : Int)) with
  | nil =>
    exact absurd (List.map_eq_nil_iff.mp hmap) hne
  | cons a rest =>
    refine ⟨rest.foldl max a, rfl, ?_, ?_⟩
    · intro s hs
      have : ((choicesOf students s.prefId).length : Int) ∈ a :: rest := by
        rw [← hmap]
        exact List.mem_map_of_mem _ hs
      rcases List.mem_cons.mp this with h | h
      · exact h ▸ le_foldl_max rest a
      · exact mem_le_foldl_max rest a _ h
    · have hmem : rest.foldl max a ∈ a :: rest := by
        rcases foldl_max_eq_or_mem rest a with h | h
        · rw [h]
          exact List.mem_cons_self a rest
        · exact List.mem_cons_of_mem a h
      rw [← hmap] at hmem
      rcases List.mem_map.mp hmem with ⟨s, hs, hval⟩
      exact ⟨s, hs, hval⟩

theorem maxWeightOf_nonneg (students : List Student) (w : Int)
    (h : maxWeightOf students = Except.ok w) : 0 ≤ w := by
  unfold maxWeightOf at h
  cases hmap : students.map (fun s => ((choicesOf students s.prefId).length : Int)) with
  | nil => rw [hmap] at h; exact absurd h (by simp)
  | cons a rest =>
    rw [hmap] at h
    have ha : (0 : Int) ≤ a := by
      have : a ∈ a :: rest := List.mem_cons_self a rest
      rw [← hmap] at this
      rcases List.mem_map.mp this with ⟨s, _, hval⟩
      omega
    have := le_foldl_max rest a
    have hw : rest.foldl max a = w := by
      exact Except.ok.inj h
    omega

/-! ### Result extraction preserves the roster -/

theorem ExtAssign.extractOne_prefId_ext (students : List Student) (val : VarKey → Bool)
    (st : Student) :
    (ExtAssign.extractOne students val st).elim AssignedEntry.prefId
      UnassignedEntry.prefId = st.prefId := by
  unfold ExtAssign.extractOne
  cases (choicesOf students st.prefId).find?
      (fun c => val (VarKey.x st.prefId c.projectId)) with
  | some c => rfl
  | none =>
    by_cases h : val (VarKey.u st.prefId) = true
    · simp [h]
    · simp [h]

theorem BaseAssign.extractOne_prefId_base (students : List Student) (val : VarKey → Bool)
    (st : Student) :
    (BaseAssign.extractOne students val st).elim AssignedEntry.prefId
      UnassignedEntry.prefId = st.prefId := by
  unfold BaseAssign.extractOne
  cases (choicesOf students st.prefId).find?
      (fun c => val (VarKey.x st.prefId c.projectId)) with
  | some c => rfl
  | none =>
    by_cases h : val (VarKey.u st.prefId) = true
    · simp [h]
    · simp [h]

theorem extract_count (studentsA : List Student) (val : VarKey → Bool)
    (roster : List Student) (sid : String) :
    ((roster.filterMap
        (fun st => (ExtAssign.extractOne studentsA val st).getLeft?)).map
      AssignedEntry.prefId).count sid +
      ((roster.filterMap
          (fun st => (ExtAssign.extractOne studentsA val st).getRight?)).map
        UnassignedEntry.prefId).count sid =
      (roster.map Student.prefId).count sid := by
  induction roster with
  | nil => simp
  | cons st l ih =>
    cases hE : ExtAssign.extractOne studentsA val st with
    | inl a =>
      have hp : a.prefId = st.prefId := by
        have h := ExtAssign.extractOne_prefId_ext studentsA val st
        rw [hE] at h
        exact h
      simp only [List.filterMap_cons, hE, Sum.getLeft?_inl, Sum.getRight?_inl,
        List.map_cons, List.count_cons, hp]
      omega
    | inr b =>
      have hp : b.prefId = st.prefId := by
        have h := ExtAssign.extractOne_prefId_ext studentsA val st
        rw [hE] at h
        exact h
      simp only [List.filterMap_cons, hE, Sum.getLeft?_inr, Sum.getRight?_inr,
        List.map_cons, List.count_cons, hp]
      omega

/-! ### Concrete fixtures -/

/-- Scenario-A student 1: a single choice ranking project `P1` first. -/
def st1 : Student := ⟨"s1", "b1", "Alice", some [⟨"P1", "Project One", 1⟩], none, none⟩

/-- Scenario-A student 2: the same single choice. -/
def st2 : Student := ⟨"s2", "b2", "Bob", some [⟨"P1", "Project One", 1⟩], none, none⟩

/-- Scenario-A input document: 2 students, 1 project with capacity 1, both
rank it first, no section data. -/
def docA : Doc := ⟨some [st1, st2], some [("P1", 1)], some ⟨none, none⟩⟩

/-- The Scenario-A model as constructed by `external_assign.assign`. -/
def mA : Model :=
  match ExtAssign.buildModel [st1, st2] [("P1", 1)] 0 1 with
  | Except.ok M => M
  | Except.error _ => ⟨[], [], []⟩

theorem mA_build : ExtAssign.buildModel [st1, st2] [("P1", 1)] 0 1 = Except.ok mA := rfl

/-- An optimal valuation of the Scenario-A model: student 1 assigned,
student 2 unassigned. -/
def sigmaStar : VarKey → Bool := fun k =>
  match k with
  | VarKey.x "s1" "P1" => true
  | VarKey.u "s2" => true
  | VarKey.y "P1" => true
  | _ => false

/-- A deterministic solver returning the optimal Scenario-A solution. -/
def solverStar : Model → SolverResult := fun _ => ⟨2, sigmaStar, -2⟩

/-- A solver that always reports the infeasible terminal status 3. -/
def solverInfeasible : Model → SolverResult := fun _ => ⟨3, fun _ => false, 0⟩

/-- The output document produced on Scenario A by `solverStar`. -/
def outAStar : Output :=
  ⟨[⟨"s1", "b1", "Alice", "P1", "Project One", 1⟩],
    [⟨"s2", "b2", "Bob", "No available capacity for ranked choices"⟩],
    some (-2)⟩

/-! ### C1: every roster student appears in exactly one output entry -/

/-- C1: for every input document accepted by `assign`, each `prefId` occurs
exactly as often in the concatenation of the `assigned` and `unassigned`
lists as in the input roster — both for accepted solver statuses and for the
degraded all-unassigned path.  In particular a student with a unique
`prefId` appears in exactly one entry, never both, never neither. -/
theorem C1_every_student_exactly_once (doc : Doc) (solver : Model → SolverResult)
    (students : List Student) (out : Output) (sid : String)
    (hs : doc.students = some students)
    (h : ExtAssign.assign doc solver = Except.ok out) :
    (out.assigned.map AssignedEntry.prefId).count sid +
      (out.unassigned.map UnassignedEntry.prefId).count sid =
      (students.map Student.prefId).count sid := by
  obtain ⟨ds, dc, dop⟩ := doc
  cases ds with
  | none => exact absurd hs (by simp)
  | some students0 =>
    have hseq : students0 = students := by
      injection hs
    subst hseq
    cases dc with
    | none => exact absurd h (by simp [ExtAssign.assign])
    | some caps =>
      cases dop with
      | none => exact absurd h (by simp [ExtAssign.assign])
      | some opts =>
        unfold ExtAssign.assign at h
        simp only at h
        cases hb : ExtAssign.buildModel students0 caps (opts.minTeamSize.getD 0)
            (opts.maxSectionsPerTeam.getD 1) with
        | error e =>
          rw [hb] at h
          exact absurd h (by simp)
        | ok M =>
          rw [hb] at h
          have h2 : (if (solver M).status = GRB.OPTIMAL ∨
              (solver M).status = GRB.SUBOPTIMAL then
                Except.ok (ExtAssign.extract students0 (solver M))
              else Except.ok (degradedOutput students0 (solver M).status)) =
              Except.ok out := h
          by_cases hst : (solver M).status = GRB.OPTIMAL ∨
              (solver M).status = GRB.SUBOPTIMAL
          · rw [if_pos hst] at h2
            have hout : ExtAssign.extract students0 (solver M) = out := by
              injection h2
            subst hout
            exact extract_count students0 (solver M).val students0 sid
          · rw [if_neg hst] at h2
            have hout : degradedOutput students0 (solver M).status = out := by
              injection h2
            subst hout
            simp [degradedOutput, List.map_map, Function.comp_def]

/-- Witness for C1 at the concrete Scenario-A input and optimal solver. -/
theorem C1_every_student_exactly_once_witness :
    (outAStar.assigned.map AssignedEntry.prefId).count "s1" +
      (outAStar.unassigned.map UnassignedEntry.prefId).count "s1" =
      (([st1, st2]).map Student.prefId).count "s1" :=
  C1_every_student_exactly_once docA solverStar [st1, st2] outAStar "s1" rfl rfl

/-! ### Structure of the built models -/

theorem ExtAssign.buildModel_ok_ext (students : List Student) (caps : List (String × Int))
    (mt ms w : Int) (hw : maxWeightOf students = Except.ok w) :
    ExtAssign.buildModel students caps mt ms = Except.ok
      { vars := xVarsOf students ++ uVarsOf students ++ yVarsOf caps ++
          (if (sectionUniverse students).isEmpty then []
           else wVarsOf students ++ zVarsOf caps students)
        constrs := assignConstrsOf students ++ capacityConstrsOf students caps mt ++
          (if (sectionUniverse students).isEmpty then []
           else sectionConstrsOf students caps ms)
        objective := objTermsOf students ++
          penaltyTermsOf students ((students.length : Int) * w + 1) } := by
  unfold ExtAssign.buildModel
  rw [hw]

theorem BaseAssign.buildModel_ok_base (students : List Student) (caps : List (String × Int))
    (mt w : Int) (hw : maxWeightOf students = Except.ok w) :
    BaseAssign.buildModel students caps mt = Except.ok
      { vars := xVarsOf students ++ uVarsOf students ++ yVarsOf caps
        constrs := assignConstrsOf students ++ capacityConstrsOf students caps mt
        objective := objTermsOf students ++
          penaltyTermsOf students ((students.length : Int) * w + 1) } := by
  unfold BaseAssign.buildModel
  rw [hw]

theorem maxCap_mem_capacityConstrs (students : List Student)
    (caps : List (String × Int)) (mt : Int) (pid : String) (cap : Int)
    (hmem : (pid, cap) ∈ caps) :
    maxCapConstr students pid cap ∈ capacityConstrsOf students caps mt := by
  unfold capacityConstrsOf
  exact List.mem_flatMap.mpr ⟨(pid, cap), hmem, by simp⟩

theorem minCap_mem_capacityConstrs (students : List Student)
    (caps : List (String × Int)) (mt : Int) (pid : String) (cap : Int)
    (hmem : (pid, cap) ∈ caps) :
    minCapConstr students pid cap mt ∈ capacityConstrsOf students caps mt := by
  unfold capacityConstrsOf
  exact List.mem_flatMap.mpr ⟨(pid, cap), hmem, by simp⟩

theorem exactlyOne_mem_assignConstrs (students : List Student) (st : Student)
    (hmem : st ∈ students) :
    exactlyOneConstr students st.prefId ∈ assignConstrsOf students := by
  unfold assignConstrsOf
  exact List.mem_map.mpr ⟨st.prefId, List.mem_map_of_mem Student.prefId hmem, rfl⟩

/-! ### C3: degraded output on any non-accepted terminal status -/

/-- C3: if the model is built and the solver terminates in any status other
than OPTIMAL or SUBOPTIMAL, `assign` returns (without raising) an output
document with an empty `assigned` list, every roster student in `unassigned`
with a reason naming the raw terminal status code, and an absent
(`none`) `totalCost`. -/
theorem C3_degraded_on_unaccepted_status (doc : Doc) (solver : Model → SolverResult)
    (students : List Student) (caps : List (String × Int)) (opts : Options) (M : Model)
    (h1 : doc.students = some students) (h2 : doc.capacities = some caps)
    (h3 : doc.options = some opts)
    (hb : ExtAssign.buildModel students caps (opts.minTeamSize.getD 0)
      (opts.maxSectionsPerTeam.getD 1) = Except.ok M)
    (hopt : (solver M).status ≠ GRB.OPTIMAL)
    (hsub : (solver M).status ≠ GRB.SUBOPTIMAL) :
    ExtAssign.assign doc solver = Except.ok
      ⟨[],
        students.map (fun s => ⟨s.prefId, s.buid, s.studentName,
          "ILP infeasible or no solution (status " ++
            toString (solver M).status ++ ")"⟩),
        none⟩ := by
  obtain ⟨ds, dc, dop⟩ := doc
  cases ds with
  | none => exact absurd h1 (by simp)
  | some students0 =>
    cases dc with
    | none => exact absurd h2 (by simp)
    | some caps0 =>
      cases dop with
      | none => exact absurd h3 (by simp)
      | some opts0 =>
        have e1 : students0 = students := by injection h1
        have e2 : caps0 = caps := by injection h2
        have e3 : opts0 = opts := by injection h3
        subst e1; subst e2; subst e3
        show (match ExtAssign.buildModel students0 caps0 (opts0.minTeamSize.getD 0)
            (opts0.maxSectionsPerTeam.getD 1) with
          | Except.error e => Except.error e
          | Except.ok M =>
            let r := solver M
            if r.status = GRB.OPTIMAL ∨ r.status = GRB.SUBOPTIMAL then
              Except.ok (ExtAssign.extract students0 r)
            else
              Except.ok (degradedOutput students0 r.status)) = _
        rw [hb]
        show (if (solver M).status = GRB.OPTIMAL ∨
            (solver M).status = GRB.SUBOPTIMAL then
            Except.ok (ExtAssign.extract students0 (solver M))
          else Except.ok (degradedOutput students0 (solver M).status)) = _
        rw [if_neg (not_or.mpr ⟨hopt, hsub⟩)]
        rfl

/-- Witness for C3: Scenario A with a solver reporting raw status 3. -/
theorem C3_degraded_on_unaccepted_status_witness :
    ExtAssign.assign docA solverInfeasible = Except.ok
      ⟨[],
        [st1, st2].map (fun s => ⟨s.prefId, s.buid, s.studentName,
          "ILP infeasible or no solution (status " ++
            toString (solverInfeasible mA).status ++ ")"⟩),
        none⟩ :=
  C3_degraded_on_unaccepted_status docA solverInfeasible [st1, st2] [("P1", 1)]
    ⟨none, none⟩ mA rfl rfl rfl mA_build (by decide) (by decide)

/-! ### C4: which inputs make `assign` raise -/

/-- C4 (divergence): the schema-conforming document with all three top-level
fields present but an empty roster makes `assign` raise — Python's `max()`
over the empty generator of choice counts — instead of returning an output
document; the raised error is not the malformed-input error. -/
theorem C4_empty_roster_raises (solver : Model → SolverResult) :
    ExtAssign.assign ⟨some [], some [], some ⟨none, none⟩⟩ solver =
      Except.error "max() arg is an empty sequence" ∧
    "max() arg is an empty sequence" ≠
      "Input data doesn\x27t have all information needed." :=
  ⟨rfl, by decide⟩

/-! ### C5: the minimum-occupancy clamp -/

/-- C5 counterexample: with `minTeamSize = 2` equal to the project capacity 2,
the code clamps the effective minimum occupancy to 0, whereas the claim
asserts the minimum still applies unclamped (value 2) when they are equal. -/
theorem C5_counterexample :
    effectiveMin 2 2 = 0 ∧ effectiveMin 2 2 ≠ 2 ∧
    minCapConstr [st1] "P1" 2 2 =
      ⟨[((1 : Int), VarKey.x "s1" "P1"), ((0 : Int), VarKey.y "P1")], Cmp.ge, 0⟩ := by
  refine ⟨rfl, by decide, by decide⟩

/-- C5 (amended): every built model contains, for each project of the
capacity dict, the minimum-occupancy constraint with bound
`effectiveMin minTeamSize capacity`; the bound is clamped to 0 exactly when
`minTeamSize ≥ capacity` — also at equality — and equals `minTeamSize`
when `minTeamSize < capacity`. -/
theorem C5_effective_min_clamped_at_ge (students : List Student)
    (caps : List (String × Int)) (mt ms cap : Int) (pid : String) (M : Model)
    (hb : ExtAssign.buildModel students caps mt ms = Except.ok M)
    (hmem : (pid, cap) ∈ caps) :
    minCapConstr students pid cap mt ∈ M.constrs ∧
    minCapConstr students pid cap mt =
      ⟨xTermsFor students pid ++ [(-(effectiveMin mt cap), VarKey.y pid)],
        Cmp.ge, 0⟩ ∧
    (cap ≤ mt → effectiveMin mt cap = 0) ∧
    (mt < cap → effectiveMin mt cap = mt) := by
  refine ⟨?_, rfl, ?_, ?_⟩
  · cases hw : maxWeightOf students with
    | error e =>
      unfold ExtAssign.buildModel at hb
      rw [hw] at hb
      exact absurd hb (by simp)
    | ok w =>
      rw [ExtAssign.buildModel_ok_ext students caps mt ms w hw] at hb
      have hM : M.constrs = assignConstrsOf students ++
          capacityConstrsOf students caps mt ++
          (if (sectionUniverse students).isEmpty then []
           else sectionConstrsOf students caps ms) := by
        have := Except.ok.inj hb
        rw [← this]
      rw [hM]
      exact List.mem_append_left _
        (List.mem_append_right _ (minCap_mem_capacityConstrs students caps mt pid cap hmem))
  · intro h
    simp [effectiveMin, h]
  · intro h
    simp [effectiveMin, not_le.mpr h]

/-- The model built for the C5 witness input (capacity 2, `minTeamSize` 2). -/
def mC5 : Model :=
  match ExtAssign.buildModel [st1] [("P1", 2)] 2 1 with
  | Except.ok M => M
  | Except.error _ => ⟨[], [], []⟩

theorem mC5_build : ExtAssign.buildModel [st1] [("P1", 2)] 2 1 = Except.ok mC5 := rfl

/-- Witness for the amended C5 at capacity 2, `minTeamSize` 2. -/
theorem C5_effective_min_clamped_at_ge_witness :
    minCapConstr [st1] "P1" 2 2 ∈ mC5.constrs ∧
    minCapConstr [st1] "P1" 2 2 =
      ⟨xTermsFor [st1] "P1" ++ [(-(effectiveMin 2 2), VarKey.y "P1")],
        Cmp.ge, 0⟩ ∧
    ((2 : Int) ≤ 2 → effectiveMin 2 2 = 0) ∧
    ((2 : Int) < 2 → effectiveMin 2 2 = 2) :=
  C5_effective_min_clamped_at_ge [st1] [("P1", 2)] 2 1 2 "P1" mC5 mC5_build
    (by decide)

/-! ### The accepted-status path of `assign` -/

theorem ExtAssign.assign_accepted (doc : Doc) (solver : Model → SolverResult)
    (students : List Student) (caps : List (String × Int)) (opts : Options) (M : Model)
    (h1 : doc.students = some students) (h2 : doc.capacities = some caps)
    (h3 : doc.options = some opts)
    (hb : ExtAssign.buildModel students caps (opts.minTeamSize.getD 0)
      (opts.maxSectionsPerTeam.getD 1) = Except.ok M)
    (hst : (solver M).status = GRB.OPTIMAL ∨ (solver M).status = GRB.SUBOPTIMAL) :
    ExtAssign.assign doc solver =
      Except.ok (ExtAssign.extract students (solver M)) := by
  obtain ⟨ds, dc, dop⟩ := doc
  cases ds with
  | none => exact absurd h1 (by simp)
  | some students0 =>
    cases dc with
    | none => exact absurd h2 (by simp)
    | some caps0 =>
      cases dop with
      | none => exact absurd h3 (by simp)
      | some opts0 =>
        have e1 : students0 = students := by injection h1
        have e2 : caps0 = caps := by injection h2
        have e3 : opts0 = opts := by injection h3
        subst e1; subst e2; subst e3
        show (match ExtAssign.buildModel students0 caps0 (opts0.minTeamSize.getD 0)
            (opts0.maxSectionsPerTeam.getD 1) with
          | Except.error e => Except.error e
          | Except.ok M =>
            let r := solver M
            if r.status = GRB.OPTIMAL ∨ r.status = GRB.SUBOPTIMAL then
              Except.ok (ExtAssign.extract students0 r)
            else
              Except.ok (degradedOutput students0 r.status)) = _
        rw [hb]
        show (if (solver M).status = GRB.OPTIMAL ∨
            (solver M).status = GRB.SUBOPTIMAL then
            Except.ok (ExtAssign.extract students0 (solver M))
          else Except.ok (degradedOutput students0 (solver M).status)) = _
        rw [if_pos hst]

/-! ### C6: capacity ceiling -/

/-- Number of assigned students of a project in the model: the value of the
`x`-term sum of its capacity constraints. -/
def assignedCountModel (students : List Student) (σ : VarKey → Bool)
    (pid : String) : Int :=
  evalTerms σ (xTermsFor students pid)

theorem assignedCountModel_nonneg (students : List Student) (σ : VarKey → Bool)
    (pid : String) : 0 ≤ assignedCountModel students σ pid := by
  unfold assignedCountModel xTermsFor
  rw [evalTerms_map_one]
  exact sum_b2i_nonneg _ _

theorem ExtAssign.extractOne_inl (studentsA : List Student) (val : VarKey → Bool)
    (st : Student) (a : AssignedEntry)
    (h : ExtAssign.extractOne studentsA val st = Sum.inl a) :
    a.prefId = st.prefId ∧ hasChoice studentsA st.prefId a.projectId = true ∧
      val (VarKey.x st.prefId a.projectId) = true := by
  unfold ExtAssign.extractOne at h
  cases hf : (choicesOf studentsA st.prefId).find?
      (fun c => val (VarKey.x st.prefId c.projectId)) with
  | none =>
    rw [hf] at h
    by_cases hv : val (VarKey.u st.prefId) = true
    · simp [hv] at h
    · simp [hv] at h
  | some c =>
    rw [hf] at h
    have ha : (⟨st.prefId, st.buid, st.studentName, c.projectId, c.projectName,
        c.rank⟩ : AssignedEntry) = a := by
      injection h
    have hpred : val (VarKey.x st.prefId c.projectId) = true := by
      have := List.find?_some hf
      simpa using this
    have hmem : c ∈ choicesOf studentsA st.prefId := List.mem_of_find?_eq_some hf
    refine ⟨by rw [← ha], ?_, ?_⟩
    · rw [← ha]
      exact List.any_eq_true.mpr ⟨c, hmem, by simp⟩
    · rw [← ha]
      exact hpred

theorem sum_b2i_filter {α : Type} (p : α → Bool) (q : α → Bool) (l : List α) :
    ((l.filter p).map (fun a => b2i (q a))).sum =
      (l.map (fun a => b2i (p a && q a))).sum := by
  induction l with
  | nil => simp
  | cons a l ih =>
    cases hp : p a with
    | true =>
      simp [List.filter_cons, hp, ih]
    | false =>
      simp [List.filter_cons, hp, ih, show b2i false = 0 from rfl]

theorem xterms_eq_roster_sum (students : List Student) (val : VarKey → Bool)
    (pid : String) :
    evalTerms val (xTermsFor students pid) =
      (students.map (fun st =>
        b2i (hasChoice students st.prefId pid &&
          val (VarKey.x st.prefId pid)))).sum := by
  unfold xTermsFor
  rw [evalTerms_map_one, sum_b2i_filter, List.map_map]
  rfl

theorem assigned_countP_le_roster_sum (studentsA : List Student)
    (val : VarKey → Bool) (roster : List Student) (pid : String) :
    (((roster.filterMap
        (fun st => (ExtAssign.extractOne studentsA val st).getLeft?)).countP
      (fun e => e.projectId == pid) : Int)) ≤
      (roster.map (fun st =>
        b2i (hasChoice studentsA st.prefId pid &&
          val (VarKey.x st.prefId pid)))).sum := by
  induction roster with
  | nil => simp
  | cons st l ih =>
    cases hE : ExtAssign.extractOne studentsA val st with
    | inr b =>
      simp only [List.filterMap_cons, hE, Sum.getLeft?_inr, List.map_cons,
        List.sum_cons]
      have hnn := b2i_nonneg (hasChoice studentsA st.prefId pid &&
        val (VarKey.x st.prefId pid))
      omega
    | inl a =>
      obtain ⟨hpid, hhc, hval⟩ := ExtAssign.extractOne_inl studentsA val st a hE
      simp only [List.filterMap_cons, hE, Sum.getLeft?_inl, List.map_cons,
        List.sum_cons, List.countP_cons]
      by_cases hp : a.projectId = pid
      · rw [hp] at hhc hval
        have hb1 : b2i (hasChoice studentsA st.prefId pid &&
            val (VarKey.x st.prefId pid)) = 1 := by
          rw [hhc, hval]
          rfl
        have hcond : (a.projectId == pid) = true := by
          simp [hp]
        simp only [hcond, if_true, hb1]
        push_cast
        omega
      · have hcond : (a.projectId == pid) = false := by
          simp [hp]
        simp only [hcond, Bool.false_eq_true, if_false]
        have hnn := b2i_nonneg (hasChoice studentsA st.prefId pid &&
          val (VarKey.x st.prefId pid))
        push_cast
        omega

/-- C6: in every feasible solution of the constructed model the number of
students assigned to a project never exceeds its capacity (in particular a
capacity-0 project receives nobody), and hence the `assigned` list extracted
from an accepted solve holds at most `capacity` entries for that project. -/
theorem C6_capacity_never_exceeded (doc : Doc) (solver : Model → SolverResult)
    (students : List Student) (caps : List (String × Int)) (opts : Options)
    (M : Model) (r : SolverResult) (pid : String) (cap : Int)
    (h1 : doc.students = some students) (h2 : doc.capacities = some caps)
    (h3 : doc.options = some opts)
    (hb : ExtAssign.buildModel students caps (opts.minTeamSize.getD 0)
      (opts.maxSectionsPerTeam.getD 1) = Except.ok M)
    (hmem : (pid, cap) ∈ caps) (hcap : 0 ≤ cap)
    (hr : solver M = r)
    (hfeas : feasibleB M r.val = true)
    (hst : r.status = GRB.OPTIMAL ∨ r.status = GRB.SUBOPTIMAL) :
    assignedCountModel students r.val pid ≤ cap ∧
    (cap = 0 → assignedCountModel students r.val pid = 0) ∧
    ExtAssign.assign doc solver = Except.ok (ExtAssign.extract students r) ∧
    (((ExtAssign.extract students r).assigned.countP
        (fun e => e.projectId == pid) : Int)) ≤ cap := by
  have hMc : maxCapConstr students pid cap ∈ M.constrs := by
    cases hw : maxWeightOf students with
    | error e =>
      unfold ExtAssign.buildModel at hb
      rw [hw] at hb
      exact absurd hb (by simp)
    | ok w =>
      rw [ExtAssign.buildModel_ok_ext students caps (opts.minTeamSize.getD 0)
        (opts.maxSectionsPerTeam.getD 1) w hw] at hb
      have hM : M.constrs = assignConstrsOf students ++
          capacityConstrsOf students caps (opts.minTeamSize.getD 0) ++
          (if (sectionUniverse students).isEmpty then []
           else sectionConstrsOf students caps (opts.maxSectionsPerTeam.getD 1)) := by
        have h := Except.ok.inj hb
        rw [← h]
      rw [hM]
      exact List.mem_append_left _ (List.mem_append_right _
        (maxCap_mem_capacityConstrs students caps (opts.minTeamSize.getD 0)
          pid cap hmem))
  have hsat := (feasibleB_iff M r.val).mp hfeas _ hMc
  have hle : evalTerms r.val (xTermsFor students pid) +
      (-cap) * b2i (r.val (VarKey.y pid)) ≤ 0 := by
    have h := (satisfies_le_iff r.val _ _).mp hsat
    rw [evalTerms_append, evalTerms_single] at h
    exact h
  have hyle := b2i_le_one (r.val (VarKey.y pid))
  have hynn := b2i_nonneg (r.val (VarKey.y pid))
  have hS : assignedCountModel students r.val pid ≤ cap := by
    unfold assignedCountModel
    nlinarith
  have hSnn := assignedCountModel_nonneg students r.val pid
  refine ⟨hS, fun hc0 => by omega, ?_, ?_⟩
  · have := ExtAssign.assign_accepted doc solver students caps opts M h1 h2 h3 hb
      (by rw [hr]; exact hst)
    rw [hr] at this
    exact this
  · calc (((ExtAssign.extract students r).assigned.countP
        (fun e => e.projectId == pid) : Int))
        ≤ (students.map (fun st =>
            b2i (hasChoice students st.prefId pid &&
              r.val (VarKey.x st.prefId pid)))).sum :=
          assigned_countP_le_roster_sum students r.val students pid
      _ = assignedCountModel students r.val pid :=
          (xterms_eq_roster_sum students r.val pid).symm
      _ ≤ cap := hS

/-- Witness for C6 at Scenario A: project `P1` with capacity 1 and the
optimal solver valuation. -/
theorem C6_capacity_never_exceeded_witness :
    assignedCountModel [st1, st2] sigmaStar "P1" ≤ 1 ∧
    ((1 : Int) = 0 → assignedCountModel [st1, st2] sigmaStar "P1" = 0) ∧
    ExtAssign.assign docA solverStar =
      Except.ok (ExtAssign.extract [st1, st2] ⟨2, sigmaStar, -2⟩) ∧
    (((ExtAssign.extract [st1, st2] (⟨2, sigmaStar, -2⟩ : SolverResult)).assigned.countP
        (fun e => e.projectId == "P1") : Int)) ≤ 1 :=
  C6_capacity_never_exceeded docA solverStar [st1, st2] [("P1", 1)] ⟨none, none⟩
    mA ⟨2, sigmaStar, -2⟩ "P1" 1 rfl rfl rfl mA_build (by decide) (by decide)
    rfl (by decide) (Or.inl rfl)

/-! ### C7: distinct-sections cap for used projects -/

/-- Number of distinct sections of the universe through which some student is
placed (`w` set) into the given project. -/
def distinctSectionsUsed (students : List Student) (σ : VarKey → Bool)
    (pid : String) : Nat :=
  ((sectionUniverse students).filter (fun sec =>
    (students.map Student.prefId).any (fun sid =>
      eligibleFor students sid pid sec && σ (VarKey.w sid pid sec)))).length

theorem filter_length_le_sum_b2i {α : Type} (p q : α → Bool) (l : List α)
    (h : ∀ a ∈ l, p a = true → q a = true) :
    ((l.filter p).length : Int) ≤ (l.map (fun a => b2i (q a))).sum := by
  induction l with
  | nil => simp
  | cons a l ih =>
    have ih2 := ih (fun b hb => h b (List.mem_cons_of_mem a hb))
    cases hp : p a with
    | true =>
      have hq := h a (List.mem_cons_self a l) hp
      simp only [List.filter_cons, hp, if_pos, List.length_cons, List.map_cons,
        List.sum_cons]
      rw [(b2i_true_iff _).mpr hq]
      push_cast
      omega
    | false =>
      simp only [List.filter_cons, hp, Bool.false_eq_true, if_false, List.map_cons,
        List.sum_cons]
      have := b2i_nonneg (q a)
      omega

theorem maxSections_mem_sectionConstrs (students : List Student)
    (caps : List (String × Int)) (ms : Int) (pid : String) (cap : Int)
    (hmem : (pid, cap) ∈ caps) :
    maxSectionsConstr students pid ms ∈ sectionConstrsOf students caps ms := by
  unfold sectionConstrsOf
  exact List.mem_append_right _ (List.mem_map.mpr ⟨(pid, cap), hmem, rfl⟩)

theorem linkZ_mem_sectionConstrs (students : List Student)
    (caps : List (String × Int)) (ms : Int) (pid : String) (cap : Int)
    (sec : String) (c : Constr) (hmem : (pid, cap) ∈ caps)
    (hsec : sec ∈ sectionUniverse students)
    (hc : c ∈ linkZConstrs students pid cap sec) :
    c ∈ sectionConstrsOf students caps ms := by
  unfold sectionConstrsOf
  refine List.mem_append_left _ (List.mem_append_right _ ?_)
  exact List.mem_flatMap.mpr ⟨(pid, cap), hmem,
    List.mem_flatMap.mpr ⟨sec, hsec, hc⟩⟩

theorem linkZConstrs_of_ne (students : List Student) (pid : String) (cap : Int)
    (sec : String)
    (hne : ((students.map Student.prefId).filter
      (fun sid => eligibleFor students sid pid sec)).isEmpty = false) :
    linkZConstrs students pid cap sec =
      [⟨(((students.map Student.prefId).filter
          (fun sid => eligibleFor students sid pid sec)).map
            (fun sid => ((1 : Int), VarKey.w sid pid sec))) ++
          [(-cap, VarKey.z pid sec)], Cmp.le, 0⟩,
        ⟨[((1 : Int), VarKey.z pid sec), ((-1 : Int), VarKey.y pid)],
          Cmp.le, 0⟩] := by
  simp [linkZConstrs, hne]

/-- C7: when the section universe is non-empty, in every feasible solution of
the section-extended model, every used project draws students from at most
`maxSectionsPerTeam` distinct sections (the option defaulting to 1 is the
`getD 1` at the call site of the builder). -/
theorem C7_sections_of_used_project_bounded (students : List Student)
    (caps : List (String × Int)) (opts : Options) (mt : Int) (M : Model)
    (σ : VarKey → Bool) (pid : String) (cap : Int)
    (hsec : sectionUniverse students ≠ [])
    (hb : ExtAssign.buildModel students caps mt
      (opts.maxSectionsPerTeam.getD 1) = Except.ok M)
    (hmem : (pid, cap) ∈ caps)
    (hfeas : feasibleB M σ = true)
    (hy : σ (VarKey.y pid) = true) :
    (distinctSectionsUsed students σ pid : Int) ≤
      opts.maxSectionsPerTeam.getD 1 := by
  cases hw : maxWeightOf students with
  | error e =>
    unfold ExtAssign.buildModel at hb
    rw [hw] at hb
    exact absurd hb (by simp)
  | ok w =>
    rw [ExtAssign.buildModel_ok_ext students caps mt
      (opts.maxSectionsPerTeam.getD 1) w hw] at hb
    have hEmp : (sectionUniverse students).isEmpty = false := by
      cases hU : sectionUniverse students
      · exact absurd hU hsec
      · rfl
    have hMc : M.constrs = assignConstrsOf students ++
        capacityConstrsOf students caps mt ++
        sectionConstrsOf students caps (opts.maxSectionsPerTeam.getD 1) := by
      have h := Except.ok.inj hb
      rw [← h, hEmp]
      simp
    have hsatAll := (feasibleB_iff M σ).mp hfeas
    have hz : ∀ sec ∈ sectionUniverse students,
        ((students.map Student.prefId).any (fun sid =>
          eligibleFor students sid pid sec && σ (VarKey.w sid pid sec))) = true →
        σ (VarKey.z pid sec) = true := by
      intro sec hsecmem hany
      obtain ⟨sid, hsidmem, hcond⟩ := List.any_eq_true.mp hany
      obtain ⟨helig, hwv⟩ := Bool.and_eq_true_iff.mp hcond
      have hsidstuds : sid ∈ (students.map Student.prefId).filter
          (fun sid => eligibleFor students sid pid sec) :=
        List.mem_filter.mpr ⟨hsidmem, helig⟩
      have hne : ((students.map Student.prefId).filter
          (fun sid => eligibleFor students sid pid sec)).isEmpty = false := by
        cases hS : (students.map Student.prefId).filter
            (fun sid => eligibleFor students sid pid sec) with
        | nil => rw [hS] at hsidstuds; simp at hsidstuds
        | cons a l => rfl
      have hc1 : (⟨(((students.map Student.prefId).filter
          (fun sid => eligibleFor students sid pid sec)).map
            (fun sid => ((1 : Int), VarKey.w sid pid sec))) ++
          [(-cap, VarKey.z pid sec)], Cmp.le, 0⟩ : Constr) ∈ M.constrs := by
        rw [hMc]
        refine List.mem_append_right _ ?_
        refine linkZ_mem_sectionConstrs students caps
          (opts.maxSectionsPerTeam.getD 1) pid cap sec _ hmem hsecmem ?_
        rw [linkZConstrs_of_ne students pid cap sec hne]
        exact List.mem_cons_self _ _
      have hsat1 := (satisfies_le_iff σ _ _).mp (hsatAll _ hc1)
      rw [evalTerms_append, evalTerms_single, evalTerms_map_one] at hsat1
      have hge1 : 1 ≤ (((students.map Student.prefId).filter
          (fun sid => eligibleFor students sid pid sec)).map
            (fun sid => b2i (σ (VarKey.w sid pid sec)))).sum :=
        one_le_sum_b2i _ _ sid hsidstuds hwv
      cases hzv : σ (VarKey.z pid sec) with
      | true => rfl
      | false =>
        rw [hzv] at hsat1
        rw [show b2i false = 0 from rfl] at hsat1
        omega
    have hcount : (distinctSectionsUsed students σ pid : Int) ≤
        ((sectionUniverse students).map
          (fun sec => b2i (σ (VarKey.z pid sec)))).sum := by
      unfold distinctSectionsUsed
      exact filter_length_le_sum_b2i _ _ _ hz
    have hc3 : maxSectionsConstr students pid (opts.maxSectionsPerTeam.getD 1) ∈
        M.constrs := by
      rw [hMc]
      exact List.mem_append_right _
        (maxSections_mem_sectionConstrs students caps
          (opts.maxSectionsPerTeam.getD 1) pid cap hmem)
    have hsat3 := (satisfies_le_iff σ _ _).mp (hsatAll _ hc3)
    unfold maxSectionsConstr at hsat3
    rw [evalTerms_append, evalTerms_single, evalTerms_map_one] at hsat3
    rw [(b2i_true_iff _).mpr hy, mul_one] at hsat3
    omega

/-- Section-instance fixture: one student eligible for section `D1` ranking
project `P1`. -/
def stS : Student :=
  ⟨"s1", "b1", "Alice", some [⟨"P1", "Project One", 1⟩], some "D1", none⟩

/-- The section-extended model for `stS` with capacity 2. -/
def mC7 : Model :=
  match ExtAssign.buildModel [stS] [("P1", 2)] 0 1 with
  | Except.ok M => M
  | Except.error _ => ⟨[], [], []⟩

theorem mC7_build : ExtAssign.buildModel [stS] [("P1", 2)] 0 1 = Except.ok mC7 := rfl

/-- A feasible valuation of `mC7`: the student placed on `P1` via `D1`. -/
def sigmaC7 : VarKey → Bool := fun k =>
  match k with
  | VarKey.x "s1" "P1" => true
  | VarKey.y "P1" => true
  | VarKey.w "s1" "P1" "D1" => true
  | VarKey.z "P1" "D1" => true
  | _ => false

/-- Witness for C7 at the concrete one-student section instance. -/
theorem C7_sections_of_used_project_bounded_witness :
    (distinctSectionsUsed [stS] sigmaC7 "P1" : Int) ≤
      (Options.mk none none).maxSectionsPerTeam.getD 1 :=
  C7_sections_of_used_project_bounded [stS] [("P1", 2)] ⟨none, none⟩ 0 mC7
    sigmaC7 "P1" 2 (by decide) mC7_build (by decide) (by decide) rfl

/-! ### C2: the unassigned penalty dominates the preference reward -/

/-- Decidable form of the C2 precondition: every choice rank lies between 1
and its student's own choice count. -/
def ranksValidB (students : List Student) : Bool :=
  students.all (fun s =>
    (choicesOf students s.prefId).all (fun c =>
      decide (1 ≤ c.rank) &&
        decide (c.rank ≤ ((choicesOf students s.prefId).length : Int))))

/-- Number of roster entries whose unassigned indicator is off. -/
def numAssigned (students : List Student) (σ : VarKey → Bool) : Nat :=
  ((students.map Student.prefId).filter
    (fun sid => σ (VarKey.u sid) == false)).length

/-- Total of the unassigned indicators over the roster. -/
def sumUnassigned (students : List Student) (σ : VarKey → Bool) : Int :=
  ((students.map Student.prefId).map (fun sid => b2i (σ (VarKey.u sid)))).sum

theorem evalTerms_cons (σ : VarKey → Bool) (t : Int × VarKey)
    (l : List (Int × VarKey)) :
    evalTerms σ (t :: l) = t.1 * b2i (σ t.2) + evalTerms σ l := by
  simp [evalTerms]

theorem filter_eqfalse_add_sum {α : Type} (g : α → Bool) (l : List α) :
    ((l.filter (fun a => g a == false)).length : Int) +
      (l.map (fun a => b2i (g a))).sum = (l.length : Int) := by
  induction l with
  | nil => simp
  | cons a l ih =>
    cases hg : g a with
    | true =>
      rw [List.filter_cons, if_neg (by simp [hg])]
      have hb1 : b2i (g a) = 1 := (b2i_true_iff _).mpr hg
      simp only [List.map_cons, List.sum_cons, List.length_cons, hb1]
      push_cast
      omega
    | false =>
      rw [List.filter_cons, if_pos (by simp [hg])]
      have hb0 : b2i (g a) = 0 := (b2i_false_iff _).mpr hg
      simp only [List.map_cons, List.sum_cons, List.length_cons, hb0]
      push_cast
      omega

theorem numAssigned_add_sumUnassigned (students : List Student)
    (σ : VarKey → Bool) :
    (numAssigned students σ : Int) + sumUnassigned students σ =
      (students.length : Int) := by
  unfold numAssigned sumUnassigned
  have h := filter_eqfalse_add_sum (fun sid => σ (VarKey.u sid))
    (students.map Student.prefId)
  rw [List.length_map] at h
  exact h

theorem sumUnassigned_nonneg (students : List Student) (σ : VarKey → Bool) :
    0 ≤ sumUnassigned students σ :=
  sum_b2i_nonneg _ _

theorem sum_scored_bounds {α : Type} (σ : VarKey → Bool) (f : α → Int)
    (k : α → VarKey) (l : List α) (w : Int)
    (hf : ∀ a ∈ l, 0 ≤ f a ∧ f a ≤ w) :
    0 ≤ evalTerms σ (l.map (fun a => (f a, k a))) ∧
      evalTerms σ (l.map (fun a => (f a, k a))) ≤
        w * (l.map (fun a => b2i (σ (k a)))).sum := by
  induction l with
  | nil => simp [evalTerms]
  | cons a l ih =>
    obtain ⟨h0, hwle⟩ := hf a (List.mem_cons_self a l)
    obtain ⟨ih0, ihw⟩ := ih (fun b hb => hf b (List.mem_cons_of_mem a hb))
    rw [List.map_cons, evalTerms_cons, List.map_cons, List.sum_cons]
    dsimp only
    constructor
    · have := mul_nonneg h0 (b2i_nonneg (σ (k a)))
      omega
    · have h1 : f a * b2i (σ (k a)) ≤ w * b2i (σ (k a)) :=
        mul_le_mul_of_nonneg_right hwle (b2i_nonneg (σ (k a)))
      have h2 : w * (b2i (σ (k a)) + (l.map (fun a => b2i (σ (k a)))).sum) =
          w * b2i (σ (k a)) + w * (l.map (fun a => b2i (σ (k a)))).sum := by
        ring
      rw [h2]
      exact add_le_add h1 ihw

theorem ranksValid_spec (students : List Student)
    (h : ranksValidB students = true) :
    ∀ s ∈ students, ∀ c ∈ choicesOf students s.prefId,
      1 ≤ c.rank ∧ c.rank ≤ ((choicesOf students s.prefId).length : Int) := by
  intro s hs c hc
  have h1 := List.all_eq_true.mp h s hs
  have h2 := List.all_eq_true.mp h1 c hc
  obtain ⟨ha, hb⟩ := Bool.and_eq_true_iff.mp h2
  exact ⟨of_decide_eq_true ha, of_decide_eq_true hb⟩

theorem perStudent_bounds (students : List Student) (σ : VarKey → Bool)
    (sid : String) (w : Int)
    (hsat : satisfies σ (exactlyOneConstr students sid) = true)
    (hranks : ∀ c ∈ choicesOf students sid,
      1 ≤ c.rank ∧ c.rank ≤ ((choicesOf students sid).length : Int))
    (hlen : ((choicesOf students sid).length : Int) ≤ w) :
    0 ≤ evalTerms σ (choiceScoreTerms students sid) ∧
      evalTerms σ (choiceScoreTerms students sid) ≤
        w * (1 - b2i (σ (VarKey.u sid))) := by
  have h1 := (satisfies_eq_iff σ _ _).mp hsat
  rw [evalTerms_append, evalTerms_single, evalTerms_map_one, one_mul] at h1
  have hT : ((choicesOf students sid).map
      (fun c => b2i (σ (VarKey.x sid c.projectId)))).sum =
      1 - b2i (σ (VarKey.u sid)) := by omega
  have hbounds := sum_scored_bounds σ
    (fun c => ((choicesOf students sid).length : Int) - c.rank + 1)
    (fun c => VarKey.x sid c.projectId) (choicesOf students sid) w
    (fun c hc => by
      obtain ⟨hr1, hr2⟩ := hranks c hc
      refine ⟨?_, ?_⟩
      · dsimp only
        omega
      · dsimp only
        omega)
  unfold choiceScoreTerms
  refine ⟨hbounds.1, ?_⟩
  calc evalTerms σ ((choicesOf students sid).map
        (fun c => (((choicesOf students sid).length : Int) - c.rank + 1,
          VarKey.x sid c.projectId)))
      ≤ w * ((choicesOf students sid).map
          (fun c => b2i (σ (VarKey.x sid c.projectId)))).sum := hbounds.2
    _ = w * (1 - b2i (σ (VarKey.u sid))) := by rw [hT]

theorem objTerms_sum_bounds (students : List Student) (σ : VarKey → Bool)
    (w : Int) (l : List String)
    (hl : ∀ sid ∈ l, 0 ≤ evalTerms σ (choiceScoreTerms students sid) ∧
      evalTerms σ (choiceScoreTerms students sid) ≤
        w * (1 - b2i (σ (VarKey.u sid)))) :
    0 ≤ (l.map (fun sid => evalTerms σ (choiceScoreTerms students sid))).sum ∧
      (l.map (fun sid => evalTerms σ (choiceScoreTerms students sid))).sum ≤
        w * ((l.length : Int) -
          (l.map (fun sid => b2i (σ (VarKey.u sid)))).sum) := by
  induction l with
  | nil => simp
  | cons sid l ih =>
    obtain ⟨h0, hwle⟩ := hl sid (List.mem_cons_self sid l)
    obtain ⟨ih0, ihw⟩ := ih (fun b hb => hl b (List.mem_cons_of_mem sid hb))
    rw [List.map_cons, List.sum_cons, List.map_cons, List.sum_cons,
      List.length_cons]
    constructor
    · omega
    · have hring : w * (((l.length : Int) + 1) -
          (b2i (σ (VarKey.u sid)) + (l.map (fun s => b2i (σ (VarKey.u s)))).sum)) =
          w * (1 - b2i (σ (VarKey.u sid))) +
            w * ((l.length : Int) - (l.map (fun s => b2i (σ (VarKey.u s)))).sum) := by
        ring
      push_cast
      rw [hring]
      exact add_le_add hwle ihw

theorem objValue_decomposition (students : List Student)
    (caps : List (String × Int)) (mt ms w : Int) (M : Model) (σ : VarKey → Bool)
    (hw : maxWeightOf students = Except.ok w)
    (hb : ExtAssign.buildModel students caps mt ms = Except.ok M)
    (hranks : ranksValidB students = true)
    (hfeas : feasibleB M σ = true) :
    objValue M σ = ((students.map Student.prefId).map
        (fun sid => evalTerms σ (choiceScoreTerms students sid))).sum -
      ((students.length : Int) * w + 1) * sumUnassigned students σ ∧
    0 ≤ ((students.map Student.prefId).map
        (fun sid => evalTerms σ (choiceScoreTerms students sid))).sum ∧
    ((students.map Student.prefId).map
        (fun sid => evalTerms σ (choiceScoreTerms students sid))).sum ≤
      w * ((students.length : Int) - sumUnassigned students σ) := by
  have hne : students ≠ [] := by
    intro he
    rw [he] at hw
    exact absurd hw (by simp [maxWeightOf])
  rw [ExtAssign.buildModel_ok_ext students caps mt ms w hw] at hb
  have hM := Except.ok.inj hb
  have hobj : M.objective = objTermsOf students ++
      penaltyTermsOf students ((students.length : Int) * w + 1) := by
    rw [← hM]
  have hcs : M.constrs = assignConstrsOf students ++
      capacityConstrsOf students caps mt ++
      (if (sectionUniverse students).isEmpty then []
       else sectionConstrsOf students caps ms) := by
    rw [← hM]
  obtain ⟨w2, hw2, hub, _⟩ := maxWeightOf_ok students hne
  have hww : w2 = w := by
    rw [hw] at hw2
    exact (Except.ok.inj hw2).symm
  rw [hww] at hub
  have hsatAll := (feasibleB_iff M σ).mp hfeas
  have hperSid : ∀ sid ∈ students.map Student.prefId,
      0 ≤ evalTerms σ (choiceScoreTerms students sid) ∧
        evalTerms σ (choiceScoreTerms students sid) ≤
          w * (1 - b2i (σ (VarKey.u sid))) := by
    intro sid hsid
    obtain ⟨st, hst, hstid⟩ := List.mem_map.mp hsid
    have hmem : exactlyOneConstr students sid ∈ M.constrs := by
      rw [hcs]
      refine List.mem_append_left _ (List.mem_append_left _ ?_)
      rw [← hstid]
      exact exactlyOne_mem_assignConstrs students st hst
    refine perStudent_bounds students σ sid w (hsatAll _ hmem) ?_ ?_
    · rw [← hstid]
      exact ranksValid_spec students hranks st hst
    · rw [← hstid]
      exact hub st hst
  have hbounds := objTerms_sum_bounds students σ w
    (students.map Student.prefId) hperSid
  rw [List.length_map] at hbounds
  refine ⟨?_, hbounds.1, hbounds.2⟩
  rw [objValue, hobj, evalTerms_append]
  unfold objTermsOf penaltyTermsOf
  rw [evalTerms_flatMap, evalTerms_map_coeff]
  unfold sumUnassigned
  ring

/-- C2: the unassigned penalty used in the objective of the built model is
`studentCount * w + 1` where `w` is exactly the maximum choice count over the
roster, and — when every rank lies between 1 and its student's choice
count — a feasible solution assigning strictly more students has strictly
greater objective value than one assigning fewer. -/
theorem C2_penalty_dominance (students : List Student)
    (caps : List (String × Int)) (mt ms w : Int) (M : Model)
    (σA σB : VarKey → Bool)
    (hw : maxWeightOf students = Except.ok w)
    (hb : ExtAssign.buildModel students caps mt ms = Except.ok M)
    (hranks : ranksValidB students = true)
    (hA : feasibleB M σA = true) (hB : feasibleB M σB = true)
    (hmore : numAssigned students σB < numAssigned students σA) :
    M.objective = objTermsOf students ++
      penaltyTermsOf students ((students.length : Int) * w + 1) ∧
    (∀ s ∈ students, ((choicesOf students s.prefId).length : Int) ≤ w) ∧
    (∃ s ∈ students, ((choicesOf students s.prefId).length : Int) = w) ∧
    objValue M σB < objValue M σA := by
  have hne : students ≠ [] := by
    intro he
    rw [he] at hw
    exact absurd hw (by simp [maxWeightOf])
  obtain ⟨w2, hw2, hub, hex⟩ := maxWeightOf_ok students hne
  have hww : w2 = w := by
    rw [hw] at hw2
    exact (Except.ok.inj hw2).symm
  rw [hww] at hub hex
  have hobj : M.objective = objTermsOf students ++
      penaltyTermsOf students ((students.length : Int) * w + 1) := by
    rw [ExtAssign.buildModel_ok_ext students caps mt ms w hw] at hb
    have hM := Except.ok.inj hb
    rw [← hM]
  refine ⟨hobj, hub, hex, ?_⟩
  obtain ⟨heqA, hA0, hAub⟩ := objValue_decomposition students caps mt ms w M σA
    hw hb hranks hA
  obtain ⟨heqB, hB0, hBub⟩ := objValue_decomposition students caps mt ms w M σB
    hw hb hranks hB
  set n : Int := (students.length : Int) with hn
  set P : Int := n * w + 1 with hP
  set UA : Int := sumUnassigned students σA with hUA
  set UB : Int := sumUnassigned students σB with hUB
  have hw0 : 0 ≤ w := maxWeightOf_nonneg students w hw
  have hn0 : 0 ≤ n := by
    rw [hn]
    positivity
  have hP1 : 1 ≤ P := by
    have := mul_nonneg hn0 hw0
    omega
  have hUA0 : 0 ≤ UA := sumUnassigned_nonneg students σA
  have hUB0 : 0 ≤ UB := sumUnassigned_nonneg students σB
  have hUrel : UA + 1 ≤ UB := by
    have hq1 := numAssigned_add_sumUnassigned students σA
    have hq2 := numAssigned_add_sumUnassigned students σB
    rw [← hn] at hq1 hq2
    rw [← hUA] at hq1
    rw [← hUB] at hq2
    have : (numAssigned students σB : Int) < (numAssigned students σA : Int) := by
      exact_mod_cast hmore
    omega
  have h1 : P * (UA + 1) ≤ P * UB :=
    mul_le_mul_of_nonneg_left hUrel (by omega)
  have h1e : P * (UA + 1) = P * UA + P := by ring
  have h2 : 0 ≤ w * UB := mul_nonneg hw0 hUB0
  have h3 : w * n - P = -1 := by
    rw [hP]
    ring
  have hexpB : w * (n - UB) = w * n - w * UB := by ring
  rw [heqA, heqB]
  linarith

/-- The all-unassigned valuation of the Scenario-A model. -/
def sigmaNone : VarKey → Bool := fun k =>
  match k with
  | VarKey.u _ => true
  | _ => false

/-- Witness for C2 at Scenario A: the optimal single-assignment valuation
beats the all-unassigned valuation. -/
theorem C2_penalty_dominance_witness :
    mA.objective = objTermsOf [st1, st2] ++
      penaltyTermsOf [st1, st2] ((([st1, st2] : List Student).length : Int) * 1 + 1) ∧
    (∀ s ∈ [st1, st2], ((choicesOf [st1, st2] s.prefId).length : Int) ≤ 1) ∧
    (∃ s ∈ [st1, st2], ((choicesOf [st1, st2] s.prefId).length : Int) = 1) ∧
    objValue mA sigmaNone < objValue mA sigmaStar :=
  C2_penalty_dominance [st1, st2] [("P1", 1)] 0 1 1 mA sigmaStar sigmaNone
    rfl mA_build (by decide) (by decide) (by decide) (by decide)

/-! ### C9: Scenario A -/

theorem mA_feasible_cases (σ : VarKey → Bool) (hfeas : feasibleB mA σ = true) :
    b2i (σ (VarKey.x "s1" "P1")) + b2i (σ (VarKey.u "s1")) = 1 ∧
    b2i (σ (VarKey.x "s2" "P1")) + b2i (σ (VarKey.u "s2")) = 1 ∧
    b2i (σ (VarKey.x "s1" "P1")) + b2i (σ (VarKey.x "s2" "P1")) ≤
      b2i (σ (VarKey.y "P1")) := by
  have hall := (feasibleB_iff mA σ).mp hfeas
  have hc : mA.constrs = [
      ⟨[((1 : Int), VarKey.x "s1" "P1"), ((1 : Int), VarKey.u "s1")], Cmp.eq, 1⟩,
      ⟨[((1 : Int), VarKey.x "s2" "P1"), ((1 : Int), VarKey.u "s2")], Cmp.eq, 1⟩,
      ⟨[((1 : Int), VarKey.x "s1" "P1"), ((1 : Int), VarKey.x "s2" "P1"),
        ((-1 : Int), VarKey.y "P1")], Cmp.le, 0⟩,
      ⟨[((1 : Int), VarKey.x "s1" "P1"), ((1 : Int), VarKey.x "s2" "P1"),
        ((0 : Int), VarKey.y "P1")], Cmp.ge, 0⟩] := rfl
  rw [hc] at hall
  have ha := (satisfies_eq_iff σ _ _).mp
    (hall ⟨[((1 : Int), VarKey.x "s1" "P1"), ((1 : Int), VarKey.u "s1")],
      Cmp.eq, 1⟩ (by simp))
  have hb := (satisfies_eq_iff σ _ _).mp
    (hall ⟨[((1 : Int), VarKey.x "s2" "P1"), ((1 : Int), VarKey.u "s2")],
      Cmp.eq, 1⟩ (by simp))
  have hd := (satisfies_le_iff σ _ _).mp
    (hall ⟨[((1 : Int), VarKey.x "s1" "P1"), ((1 : Int), VarKey.x "s2" "P1"),
      ((-1 : Int), VarKey.y "P1")], Cmp.le, 0⟩ (by simp))
  simp [evalTerms] at ha hb hd
  refine ⟨by omega, by omega, by omega⟩

theorem mA_optimal_cases (τ : VarKey → Bool) (hfeas : feasibleB mA τ = true)
    (hopt : OptimalFor mA τ) :
    (τ (VarKey.x "s1" "P1") = true ∧ τ (VarKey.u "s1") = false ∧
      τ (VarKey.x "s2" "P1") = false ∧ τ (VarKey.u "s2") = true) ∨
    (τ (VarKey.x "s1" "P1") = false ∧ τ (VarKey.u "s1") = true ∧
      τ (VarKey.x "s2" "P1") = true ∧ τ (VarKey.u "s2") = false) := by
  obtain ⟨h1, h2, h3⟩ := mA_feasible_cases τ hfeas
  have hyle := b2i_le_one (τ (VarKey.y "P1"))
  have hge := hopt sigmaStar (by decide)
  have hstar : objValue mA sigmaStar = -2 := by decide
  rw [hstar] at hge
  unfold objValue at hge
  have hmobj : mA.objective = [((1 : Int), VarKey.x "s1" "P1"),
      ((1 : Int), VarKey.x "s2" "P1"), ((-3 : Int), VarKey.u "s1"),
      ((-3 : Int), VarKey.u "s2")] := rfl
  rw [hmobj] at hge
  simp [evalTerms] at hge
  cases hx1 : τ (VarKey.x "s1" "P1") <;>
  cases hx2 : τ (VarKey.x "s2" "P1") <;>
  cases hu1 : τ (VarKey.u "s1") <;>
  cases hu2 : τ (VarKey.u "s2") <;>
    simp only [hx1, hx2, hu1, hu2, show b2i true = 1 from rfl,
      show b2i false = 0 from rfl] at h1 h2 h3 hge <;>
    first
    | omega
    | decide

theorem mA_sigmaStar_optimal : OptimalFor mA sigmaStar := by
  intro τ hf
  obtain ⟨h1, h2, h3⟩ := mA_feasible_cases τ hf
  have hyle := b2i_le_one (τ (VarKey.y "P1"))
  have hstar : objValue mA sigmaStar = -2 := by decide
  rw [hstar]
  unfold objValue
  have hmobj : mA.objective = [((1 : Int), VarKey.x "s1" "P1"),
      ((1 : Int), VarKey.x "s2" "P1"), ((-3 : Int), VarKey.u "s1"),
      ((-3 : Int), VarKey.u "s2")] := rfl
  rw [hmobj]
  simp [evalTerms]
  cases hx1 : τ (VarKey.x "s1" "P1") <;>
  cases hx2 : τ (VarKey.x "s2" "P1") <;>
  cases hu1 : τ (VarKey.u "s1") <;>
  cases hu2 : τ (VarKey.u "s2") <;>
    simp only [hx1, hx2, hu1, hu2, show b2i true = 1 from rfl,
      show b2i false = 0 from rfl] at h1 h2 h3 ⊢ <;>
    omega

/-- C9 counterexample: `solverStar` is an optimal accepted solve of Scenario
A (status OPTIMAL, feasible and optimal valuation), and the reason string it
produces for the unassigned student is "No available capacity for ranked
choices" — with a capital N — not the claimed lowercase
"no available capacity for ranked choices". -/
theorem C9_counterexample :
    feasibleB mA sigmaStar = true ∧
    OptimalFor mA sigmaStar ∧
    (solverStar mA).status = GRB.OPTIMAL ∧
    ExtAssign.assign docA solverStar = Except.ok outAStar ∧
    outAStar.unassigned.map (fun e => e.reason) =
      ["No available capacity for ranked choices"] ∧
    "No available capacity for ranked choices" ≠
      "no available capacity for ranked choices" :=
  ⟨by decide, mA_sigmaStar_optimal, rfl, rfl, rfl, by decide⟩

/-- C9 (amended): on Scenario A (2 students, 1 project of capacity 1, both
ranking it first), every solve terminating OPTIMAL with a feasible optimal
valuation returns exactly one student assigned at rank 1 on that project and
the other unassigned with reason "No available capacity for ranked choices"
(capitalized as emitted by the code). -/
theorem C9_one_assigned_one_unassigned (solver : Model → SolverResult)
    (hst : (solver mA).status = GRB.OPTIMAL)
    (hfeas : feasibleB mA (solver mA).val = true)
    (hopt : OptimalFor mA (solver mA).val) :
    ExtAssign.assign docA solver =
      Except.ok (ExtAssign.extract [st1, st2] (solver mA)) ∧
    (((ExtAssign.extract [st1, st2] (solver mA)).assigned.map
        (fun e => (e.prefId, e.projectId, e.rank)) =
          [("s1", "P1", (1 : Int))] ∧
      (ExtAssign.extract [st1, st2] (solver mA)).unassigned.map
        (fun e => (e.prefId, e.reason)) =
          [("s2", "No available capacity for ranked choices")]) ∨
     ((ExtAssign.extract [st1, st2] (solver mA)).assigned.map
        (fun e => (e.prefId, e.projectId, e.rank)) =
          [("s2", "P1", (1 : Int))] ∧
      (ExtAssign.extract [st1, st2] (solver mA)).unassigned.map
        (fun e => (e.prefId, e.reason)) =
          [("s1", "No available capacity for ranked choices")])) := by
  refine ⟨ExtAssign.assign_accepted docA solver [st1, st2] [("P1", 1)]
    ⟨none, none⟩ mA rfl rfl rfl mA_build (Or.inl hst), ?_⟩
  have hch1 : choicesOf [st1, st2] "s1" = [⟨"P1", "Project One", 1⟩] := rfl
  have hch2 : choicesOf [st1, st2] "s2" = [⟨"P1", "Project One", 1⟩] := rfl
  rcases mA_optimal_cases (solver mA).val hfeas hopt with
    ⟨hx1, hu1, hx2, hu2⟩ | ⟨hx1, hu1, hx2, hu2⟩
  · left
    have hE1 : ExtAssign.extractOne [st1, st2] (solver mA).val st1 =
        Sum.inl ⟨"s1", "b1", "Alice", "P1", "Project One", 1⟩ := by
      unfold ExtAssign.extractOne
      rw [show st1.prefId = "s1" from rfl, hch1]
      simp [List.find?, hx1, st1]
    have hE2 : ExtAssign.extractOne [st1, st2] (solver mA).val st2 =
        Sum.inr ⟨"s2", "b2", "Bob", "No available capacity for ranked choices"⟩ := by
      unfold ExtAssign.extractOne
      rw [show st2.prefId = "s2" from rfl, hch2]
      simp [List.find?, hx2, hu2, st2]
    constructor
    · unfold ExtAssign.extract
      simp [List.filterMap_cons, hE1, hE2]
    · unfold ExtAssign.extract
      simp [List.filterMap_cons, hE1, hE2]
  · right
    have hE1 : ExtAssign.extractOne [st1, st2] (solver mA).val st1 =
        Sum.inr ⟨"s1", "b1", "Alice", "No available capacity for ranked choices"⟩ := by
      unfold ExtAssign.extractOne
      rw [show st1.prefId = "s1" from rfl, hch1]
      simp [List.find?, hx1, hu1, st1]
    have hE2 : ExtAssign.extractOne [st1, st2] (solver mA).val st2 =
        Sum.inl ⟨"s2", "b2", "Bob", "P1", "Project One", 1⟩ := by
      unfold ExtAssign.extractOne
      rw [show st2.prefId = "s2" from rfl, hch2]
      simp [List.find?, hx2, st2]
    constructor
    · unfold ExtAssign.extract
      simp [List.filterMap_cons, hE1, hE2]
    · unfold ExtAssign.extract
      simp [List.filterMap_cons, hE1, hE2]

/-- Witness for the amended C9 at the concrete optimal solver. -/
theorem C9_one_assigned_one_unassigned_witness :
    ExtAssign.assign docA solverStar =
      Except.ok (ExtAssign.extract [st1, st2] (solverStar mA)) ∧
    (((ExtAssign.extract [st1, st2] (solverStar mA)).assigned.map
        (fun e => (e.prefId, e.projectId, e.rank)) =
          [("s1", "P1", (1 : Int))] ∧
      (ExtAssign.extract [st1, st2] (solverStar mA)).unassigned.map
        (fun e => (e.prefId, e.reason)) =
          [("s2", "No available capacity for ranked choices")]) ∨
     ((ExtAssign.extract [st1, st2] (solverStar mA)).assigned.map
        (fun e => (e.prefId, e.projectId, e.rank)) =
          [("s2", "P1", (1 : Int))] ∧
      (ExtAssign.extract [st1, st2] (solverStar mA)).unassigned.map
        (fun e => (e.prefId, e.reason)) =
          [("s1", "No available capacity for ranked choices")])) :=
  C9_one_assigned_one_unassigned solverStar rfl (by decide) mA_sigmaStar_optimal

/-! ### C8: capacity monotonicity -/

/-- C8 counterexample fixture: one student ranking project `A` once. -/
def stB : Student := ⟨"t1", "bt", "Tom", some [⟨"A", "Proj A", 1⟩], none, none⟩

/-- The model for `stB` with capacity 2 and `minTeamSize` 3 (minimum clamped
to 0 because it exceeds the capacity). -/
def mB2 : Model :=
  match ExtAssign.buildModel [stB] [("A", 2)] 3 1 with
  | Except.ok M => M
  | Except.error _ => ⟨[], [], []⟩

theorem mB2_build : ExtAssign.buildModel [stB] [("A", 2)] 3 1 = Except.ok mB2 := rfl

/-- The model for `stB` with capacity 4 and `minTeamSize` 3 (minimum now
active, so the lone student can no longer be placed). -/
def mB4 : Model :=
  match ExtAssign.buildModel [stB] [("A", 4)] 3 1 with
  | Except.ok M => M
  | Except.error _ => ⟨[], [], []⟩

theorem mB4_build : ExtAssign.buildModel [stB] [("A", 4)] 3 1 = Except.ok mB4 := rfl

/-- Winning valuation of `mB2`: the student assigned. -/
def sigmaB2 : VarKey → Bool := fun k =>
  match k with
  | VarKey.x "t1" "A" => true
  | VarKey.y "A" => true
  | _ => false

/-- Only feasible valuation shape of `mB4`: the student unassigned. -/
def sigmaB4 : VarKey → Bool := fun k =>
  match k with
  | VarKey.u "t1" => true
  | _ => false

theorem mB2_optimal : IsOptimalValue mB2 1 := by
  constructor
  · exact ⟨sigmaB2, by decide, by decide⟩
  · intro σ hfeas
    unfold objValue
    have hmobj : mB2.objective = [((1 : Int), VarKey.x "t1" "A"),
        ((-2 : Int), VarKey.u "t1")] := rfl
    rw [hmobj]
    simp [evalTerms]
    have h1 := b2i_le_one (σ (VarKey.x "t1" "A"))
    have h2 := b2i_nonneg (σ (VarKey.u "t1"))
    omega

theorem mB4_optimal : IsOptimalValue mB4 (-2) := by
  constructor
  · exact ⟨sigmaB4, by decide, by decide⟩
  · intro σ hfeas
    have hall := (feasibleB_iff mB4 σ).mp hfeas
    have hc : mB4.constrs = [
        ⟨[((1 : Int), VarKey.x "t1" "A"), ((1 : Int), VarKey.u "t1")], Cmp.eq, 1⟩,
        ⟨[((1 : Int), VarKey.x "t1" "A"), ((-4 : Int), VarKey.y "A")], Cmp.le, 0⟩,
        ⟨[((1 : Int), VarKey.x "t1" "A"), ((-3 : Int), VarKey.y "A")], Cmp.ge, 0⟩] := rfl
    rw [hc] at hall
    have h1 := (satisfies_eq_iff σ _ _).mp
      (hall ⟨[((1 : Int), VarKey.x "t1" "A"), ((1 : Int), VarKey.u "t1")],
        Cmp.eq, 1⟩ (by simp))
    have h2 := (satisfies_le_iff σ _ _).mp
      (hall ⟨[((1 : Int), VarKey.x "t1" "A"), ((-4 : Int), VarKey.y "A")],
        Cmp.le, 0⟩ (by simp))
    have h3 := (satisfies_ge_iff σ _ _).mp
      (hall ⟨[((1 : Int), VarKey.x "t1" "A"), ((-3 : Int), VarKey.y "A")],
        Cmp.ge, 0⟩ (by simp))
    simp [evalTerms] at h1 h2 h3
    unfold objValue
    have hmobj : mB4.objective = [((1 : Int), VarKey.x "t1" "A"),
        ((-2 : Int), VarKey.u "t1")] := rfl
    rw [hmobj]
    simp [evalTerms]
    have hx := b2i_le_one (σ (VarKey.x "t1" "A"))
    have hx0 := b2i_nonneg (σ (VarKey.x "t1" "A"))
    have hy := b2i_le_one (σ (VarKey.y "A"))
    have hy0 := b2i_nonneg (σ (VarKey.y "A"))
    omega

/-- C8 counterexample: raising project `A`'s capacity from 2 to 4 (with
`minTeamSize = 3`, all else equal) drops the optimal objective value from 1
to -2, because the enlarged capacity re-activates the minimum-occupancy
floor that the clamp had disabled. -/
theorem C8_counterexample :
    IsOptimalValue mB2 1 ∧ IsOptimalValue mB4 (-2) ∧ ((-2 : Int) < 1) :=
  ⟨mB2_optimal, mB4_optimal, by decide⟩

theorem satisfies_le_relax (σ : VarKey → Bool) (ts : List (Int × VarKey))
    (k : VarKey) (c c2 : Int) (hle : c ≤ c2)
    (hsat : satisfies σ ⟨ts ++ [(-c, k)], Cmp.le, 0⟩ = true) :
    satisfies σ ⟨ts ++ [(-c2, k)], Cmp.le, 0⟩ = true := by
  rw [satisfies_le_iff] at hsat ⊢
  rw [evalTerms_append, evalTerms_single] at hsat ⊢
  have h1 := b2i_nonneg (σ k)
  nlinarith [mul_nonneg (sub_nonneg.mpr hle) h1]

/-- C8 (amended): increasing one project's capacity (all else equal) never
decreases the optimal objective value, provided the project's effective
minimum occupancy is unchanged by the increase — in particular whenever
`minTeamSize = 0`.  The counterexample shows the proviso is necessary: the
clamp of the minimum-occupancy floor can toggle when the capacity grows. -/
theorem C8_capacity_monotone (students : List Student)
    (caps : List (String × Int)) (mt ms : Int) (p : String) (cNew : Int)
    (M M2 : Model) (v v2 : Int)
    (hb : ExtAssign.buildModel students caps mt ms = Except.ok M)
    (hb2 : ExtAssign.buildModel students
      (caps.map (fun qc => if qc.1 = p then (qc.1, cNew) else qc)) mt ms =
      Except.ok M2)
    (hinc : ∀ qc ∈ caps, qc.1 = p → qc.2 ≤ cNew ∧
      effectiveMin mt qc.2 = effectiveMin mt cNew)
    (hv : IsOptimalValue M v) (hv2 : IsOptimalValue M2 v2) :
    v ≤ v2 := by
  cases hw : maxWeightOf students with
  | error e =>
    unfold ExtAssign.buildModel at hb
    rw [hw] at hb
    exact absurd hb (by simp)
  | ok w =>
    rw [ExtAssign.buildModel_ok_ext students caps mt ms w hw] at hb
    rw [ExtAssign.buildModel_ok_ext students
      (caps.map (fun qc => if qc.1 = p then (qc.1, cNew) else qc)) mt ms w hw] at hb2
    have hM := Except.ok.inj hb
    have hM2 := Except.ok.inj hb2
    have hMo : M.objective = objTermsOf students ++
        penaltyTermsOf students ((students.length : Int) * w + 1) := by
      rw [← hM]
    have hM2o : M2.objective = objTermsOf students ++
        penaltyTermsOf students ((students.length : Int) * w + 1) := by
      rw [← hM2]
    have hMc : M.constrs = assignConstrsOf students ++
        capacityConstrsOf students caps mt ++
        (if (sectionUniverse students).isEmpty then []
         else sectionConstrsOf students caps ms) := by
      rw [← hM]
    have hM2c : M2.constrs = assignConstrsOf students ++
        capacityConstrsOf students
          (caps.map (fun qc => if qc.1 = p then (qc.1, cNew) else qc)) mt ++
        (if (sectionUniverse students).isEmpty then []
         else sectionConstrsOf students
           (caps.map (fun qc => if qc.1 = p then (qc.1, cNew) else qc)) ms) := by
      rw [← hM2]
    have hincl : ∀ σ, feasibleB M σ = true → feasibleB M2 σ = true := by
      intro σ hf
      have hall := (feasibleB_iff M σ).mp hf
      rw [hMc] at hall
      refine (feasibleB_iff M2 σ).mpr ?_
      rw [hM2c]
      intro c hcmem
      rcases List.mem_append.mp hcmem with hcab | hcS
      · rcases List.mem_append.mp hcab with hcA | hcB
        · exact hall c (List.mem_append_left _ (List.mem_append_left _ hcA))
        · unfold capacityConstrsOf at hcB
          rcases List.mem_flatMap.mp hcB with ⟨qc2, hqc2, hcin⟩
          rcases List.mem_map.mp hqc2 with ⟨qc, hqc, hfeq⟩
          by_cases hqp : qc.1 = p
          · have hfq : qc2 = (qc.1, cNew) := by
              rw [← hfeq, if_pos hqp]
            obtain ⟨hle, hmineq⟩ := hinc qc hqc hqp
            subst hfq
            dsimp only at hcin
            rcases List.mem_cons.mp hcin with hcmax | hcmin
            · subst hcmax
              have hsat := hall (maxCapConstr students qc.1 qc.2)
                (List.mem_append_left _ (List.mem_append_right _
                  (maxCap_mem_capacityConstrs students caps mt qc.1 qc.2
                    (by rw [Prod.mk.eta]; exact hqc))))
              exact satisfies_le_relax σ (xTermsFor students qc.1)
                (VarKey.y qc.1) qc.2 cNew hle hsat
            · have hcm : c = minCapConstr students qc.1 cNew mt :=
                List.mem_singleton.mp hcmin
              rw [hcm]
              have heq : minCapConstr students qc.1 cNew mt =
                  minCapConstr students qc.1 qc.2 mt := by
                unfold minCapConstr
                rw [hmineq]
              rw [heq]
              exact hall _ (List.mem_append_left _ (List.mem_append_right _
                (minCap_mem_capacityConstrs students caps mt qc.1 qc.2
                  (by rw [Prod.mk.eta]; exact hqc))))
          · have hfq : qc2 = qc := by
              rw [← hfeq, if_neg hqp]
            rw [hfq] at hcin
            exact hall c (List.mem_append_left _ (List.mem_append_right _
              (List.mem_flatMap.mpr ⟨qc, hqc, hcin⟩)))
      · by_cases hU : (sectionUniverse students).isEmpty = true
        · rw [if_pos hU] at hcS
          simp at hcS
        · rw [if_neg hU] at hcS
          have hmemS : ∀ c2 ∈ sectionConstrsOf students caps ms,
              satisfies σ c2 = true := by
            intro c2 hc2
            refine hall c2 (List.mem_append_right _ ?_)
            rw [if_neg hU]
            exact hc2
          unfold sectionConstrsOf at hcS
          rcases List.mem_append.mp hcS with hcXZ | hcMS
          · rcases List.mem_append.mp hcXZ with hcXW | hcZ
            · exact hmemS c (List.mem_append_left _ (List.mem_append_left _ hcXW))
            · rcases List.mem_flatMap.mp hcZ with ⟨qc2, hqc2, hcsec⟩
              rcases List.mem_map.mp hqc2 with ⟨qc, hqc, hfeq⟩
              rcases List.mem_flatMap.mp hcsec with ⟨sec, hsecmem, hcin⟩
              by_cases hqp : qc.1 = p
              · have hfq : qc2 = (qc.1, cNew) := by
                  rw [← hfeq, if_pos hqp]
                obtain ⟨hle, _⟩ := hinc qc hqc hqp
                subst hfq
                dsimp only at hcin
                by_cases hse : ((students.map Student.prefId).filter
                    (fun sid => eligibleFor students sid qc.1 sec)).isEmpty = true
                · have hzc : linkZConstrs students qc.1 cNew sec =
                      [⟨[((1 : Int), VarKey.z qc.1 sec)], Cmp.eq, 0⟩] := by
                    simp [linkZConstrs, hse]
                  rw [hzc] at hcin
                  have hzc2 : linkZConstrs students qc.1 qc.2 sec =
                      [⟨[((1 : Int), VarKey.z qc.1 sec)], Cmp.eq, 0⟩] := by
                    simp [linkZConstrs, hse]
                  refine hmemS c ?_
                  refine List.mem_append_left _ (List.mem_append_right _ ?_)
                  refine List.mem_flatMap.mpr ⟨qc, hqc,
                    List.mem_flatMap.mpr ⟨sec, hsecmem, ?_⟩⟩
                  rw [hzc2]
                  exact hcin
                · have hsef : ((students.map Student.prefId).filter
                      (fun sid => eligibleFor students sid qc.1 sec)).isEmpty = false := by
                    cases hval : ((students.map Student.prefId).filter
                        (fun sid => eligibleFor students sid qc.1 sec)).isEmpty
                    · rfl
                    · exact absurd hval hse
                  rw [linkZConstrs_of_ne students qc.1 cNew sec hsef] at hcin
                  rcases List.mem_cons.mp hcin with hcw | hcy
                  · rw [hcw]
                    have hmw := hmemS (⟨(((students.map Student.prefId).filter
                        (fun sid => eligibleFor students sid qc.1 sec)).map
                          (fun sid => ((1 : Int), VarKey.w sid qc.1 sec))) ++
                        [(-qc.2, VarKey.z qc.1 sec)], Cmp.le, 0⟩)
                      (List.mem_append_left _ (List.mem_append_right _
                        (List.mem_flatMap.mpr ⟨qc, hqc, List.mem_flatMap.mpr
                          ⟨sec, hsecmem, by
                            rw [linkZConstrs_of_ne students qc.1 qc.2 sec hsef]
                            exact List.mem_cons_self _ _⟩⟩)))
                    exact satisfies_le_relax σ _ (VarKey.z qc.1 sec) qc.2 cNew hle hmw
                  · have hcy2 : c = ⟨[((1 : Int), VarKey.z qc.1 sec),
                        ((-1 : Int), VarKey.y qc.1)], Cmp.le, 0⟩ :=
                      List.mem_singleton.mp hcy
                    rw [hcy2]
                    refine hmemS _ ?_
                    refine List.mem_append_left _ (List.mem_append_right _ ?_)
                    refine List.mem_flatMap.mpr ⟨qc, hqc,
                      List.mem_flatMap.mpr ⟨sec, hsecmem, ?_⟩⟩
                    rw [linkZConstrs_of_ne students qc.1 qc.2 sec hsef]
                    exact List.mem_cons_of_mem _ (List.mem_cons_self _ _)
              · have hfq : qc2 = qc := by
                  rw [← hfeq, if_neg hqp]
                rw [hfq] at hcsec
                refine hmemS c ?_
                refine List.mem_append_left _ (List.mem_append_right _ ?_)
                exact List.mem_flatMap.mpr ⟨qc, hqc, hcsec⟩
          · rcases List.mem_map.mp hcMS with ⟨qc2, hqc2, hceq⟩
            rcases List.mem_map.mp hqc2 with ⟨qc, hqc, hfeq⟩
            have h1 : qc2.1 = qc.1 := by
              rw [← hfeq]
              by_cases hqp : qc.1 = p
              · rw [if_pos hqp]
              · rw [if_neg hqp]
            rw [← hceq]
            rw [h1]
            refine hmemS _ ?_
            exact List.mem_append_right _ (List.mem_map.mpr ⟨qc, hqc, rfl⟩)
    obtain ⟨⟨σ0, hf0, hval0⟩, _⟩ := hv
    obtain ⟨_, hub2⟩ := hv2
    have h2 := hub2 σ0 (hincl σ0 hf0)
    have hobj : objValue M2 σ0 = objValue M σ0 := by
      unfold objValue
      rw [hMo, hM2o]
    omega

/-- C8 witness fixture: one student with an empty choice list. -/
def stN : Student := ⟨"n1", "bn", "Nora", some [], none, none⟩

/-- The model for `stN` with capacity 0. -/
def mW0 : Model :=
  match ExtAssign.buildModel [stN] [("A", 0)] 0 1 with
  | Except.ok M => M
  | Except.error _ => ⟨[], [], []⟩

theorem mW0_build : ExtAssign.buildModel [stN] [("A", 0)] 0 1 = Except.ok mW0 := rfl

/-- The model for `stN` with capacity 1. -/
def mW1 : Model :=
  match ExtAssign.buildModel [stN] [("A", 1)] 0 1 with
  | Except.ok M => M
  | Except.error _ => ⟨[], [], []⟩

theorem mW1_build : ExtAssign.buildModel [stN] [("A", 1)] 0 1 = Except.ok mW1 := rfl

/-- The only feasible shape for `stN`: unassigned. -/
def sigmaN : VarKey → Bool := fun k =>
  match k with
  | VarKey.u "n1" => true
  | _ => false

theorem mW0_optimal : IsOptimalValue mW0 (-1) := by
  constructor
  · exact ⟨sigmaN, by decide, by decide⟩
  · intro σ hfeas
    have hall := (feasibleB_iff mW0 σ).mp hfeas
    have hc : mW0.constrs = [
        ⟨[((1 : Int), VarKey.u "n1")], Cmp.eq, 1⟩,
        ⟨[((0 : Int), VarKey.y "A")], Cmp.le, 0⟩,
        ⟨[((0 : Int), VarKey.y "A")], Cmp.ge, 0⟩] := rfl
    rw [hc] at hall
    have h1 := (satisfies_eq_iff σ _ _).mp
      (hall ⟨[((1 : Int), VarKey.u "n1")], Cmp.eq, 1⟩ (by simp))
    simp [evalTerms] at h1
    unfold objValue
    have hmobj : mW0.objective = [((-1 : Int), VarKey.u "n1")] := rfl
    rw [hmobj]
    simp [evalTerms]
    omega

theorem mW1_optimal : IsOptimalValue mW1 (-1) := by
  constructor
  · exact ⟨sigmaN, by decide, by decide⟩
  · intro σ hfeas
    have hall := (feasibleB_iff mW1 σ).mp hfeas
    have hc : mW1.constrs = [
        ⟨[((1 : Int), VarKey.u "n1")], Cmp.eq, 1⟩,
        ⟨[((-1 : Int), VarKey.y "A")], Cmp.le, 0⟩,
        ⟨[((0 : Int), VarKey.y "A")], Cmp.ge, 0⟩] := rfl
    rw [hc] at hall
    have h1 := (satisfies_eq_iff σ _ _).mp
      (hall ⟨[((1 : Int), VarKey.u "n1")], Cmp.eq, 1⟩ (by simp))
    simp [evalTerms] at h1
    unfold objValue
    have hmobj : mW1.objective = [((-1 : Int), VarKey.u "n1")] := rfl
    rw [hmobj]
    simp [evalTerms]
    omega

/-- Witness for the amended C8: raising the capacity of project `A` from 0
to 1 with `minTeamSize = 0` keeps the optimal value at -1. -/
theorem C8_capacity_monotone_witness : ((-1 : Int)) ≤ -1 :=
  C8_capacity_monotone [stN] [("A", 0)] 0 1 "A" 1 mW0 mW1 (-1) (-1)
    mW0_build
    (by
      rw [show ([(("A" : String), (0 : Int))].map
        (fun qc => if qc.1 = "A" then (qc.1, (1 : Int)) else qc)) = [("A", 1)]
        from by decide]
      exact mW1_build)
    (by decide) mW0_optimal mW1_optimal

/-! ### C10: base variant versus section variant -/

/-- Single-student document with no section data. -/
def doc1 : Doc := ⟨some [st1], some [("P1", 1)], some ⟨none, none⟩⟩

/-- A solver reporting OPTIMAL with the all-false valuation (an inconsistent
result no correct solver would produce). -/
def badSolver : Model → SolverResult := fun _ => ⟨2, fun _ => false, 0⟩

/-- Output of the section variant under `badSolver`. -/
def outExtBad : Output :=
  ⟨[], [⟨"s1", "b1", "Alice",
    "Inconsistent assignment. Not assigned to a project but not explicitly marked unassigned."⟩],
    some 0⟩

/-- Output of the base variant under `badSolver`. -/
def outBaseBad : Output :=
  ⟨[], [⟨"s1", "b1", "Alice",
    "Inconsistent assignment. Not assigned but not explicitly marked unassigned."⟩],
    some 0⟩

/-- C10 counterexample: on an input with an empty section universe and one
identical deterministic solver, the two variants return different output
documents — their defensive reason strings for the inconsistent-solution
branch differ between the two files. -/
theorem C10_counterexample :
    sectionUniverse [st1] = [] ∧
    ExtAssign.assign doc1 badSolver = Except.ok outExtBad ∧
    BaseAssign.assign doc1 badSolver = Except.ok outBaseBad ∧
    outExtBad ≠ outBaseBad :=
  ⟨rfl, rfl, rfl, by decide⟩

theorem ExtAssign.assign_cases_ext (doc : Doc) (solver : Model → SolverResult)
    (students : List Student) (caps : List (String × Int)) (opts : Options)
    (M : Model)
    (h1 : doc.students = some students) (h2 : doc.capacities = some caps)
    (h3 : doc.options = some opts)
    (hb : ExtAssign.buildModel students caps (opts.minTeamSize.getD 0)
      (opts.maxSectionsPerTeam.getD 1) = Except.ok M) :
    ExtAssign.assign doc solver =
      (if (solver M).status = GRB.OPTIMAL ∨ (solver M).status = GRB.SUBOPTIMAL then
        Except.ok (ExtAssign.extract students (solver M))
      else Except.ok (degradedOutput students (solver M).status)) := by
  obtain ⟨ds, dc, dop⟩ := doc
  cases ds with
  | none => exact absurd h1 (by simp)
  | some students0 =>
    cases dc with
    | none => exact absurd h2 (by simp)
    | some caps0 =>
      cases dop with
      | none => exact absurd h3 (by simp)
      | some opts0 =>
        have e1 : students0 = students := by injection h1
        have e2 : caps0 = caps := by injection h2
        have e3 : opts0 = opts := by injection h3
        subst e1; subst e2; subst e3
        show (match ExtAssign.buildModel students0 caps0 (opts0.minTeamSize.getD 0)
            (opts0.maxSectionsPerTeam.getD 1) with
          | Except.error e => Except.error e
          | Except.ok M =>
            let r := solver M
            if r.status = GRB.OPTIMAL ∨ r.status = GRB.SUBOPTIMAL then
              Except.ok (ExtAssign.extract students0 r)
            else
              Except.ok (degradedOutput students0 r.status)) = _
        rw [hb]

theorem ExtAssign.assign_error_ext (doc : Doc) (solver : Model → SolverResult)
    (students : List Student) (caps : List (String × Int)) (opts : Options)
    (e : String)
    (h1 : doc.students = some students) (h2 : doc.capacities = some caps)
    (h3 : doc.options = some opts)
    (hb : ExtAssign.buildModel students caps (opts.minTeamSize.getD 0)
      (opts.maxSectionsPerTeam.getD 1) = Except.error e) :
    ExtAssign.assign doc solver = Except.error e := by
  obtain ⟨ds, dc, dop⟩ := doc
  cases ds with
  | none => exact absurd h1 (by simp)
  | some students0 =>
    cases dc with
    | none => exact absurd h2 (by simp)
    | some caps0 =>
      cases dop with
      | none => exact absurd h3 (by simp)
      | some opts0 =>
        have e1 : students0 = students := by injection h1
        have e2 : caps0 = caps := by injection h2
        have e3 : opts0 = opts := by injection h3
        subst e1; subst e2; subst e3
        show (match ExtAssign.buildModel students0 caps0 (opts0.minTeamSize.getD 0)
            (opts0.maxSectionsPerTeam.getD 1) with
          | Except.error e => Except.error e
          | Except.ok M =>
            let r := solver M
            if r.status = GRB.OPTIMAL ∨ r.status = GRB.SUBOPTIMAL then
              Except.ok (ExtAssign.extract students0 r)
            else
              Except.ok (degradedOutput students0 r.status)) = _
        rw [hb]

theorem BaseAssign.assign_cases_base (doc : Doc) (solver : Model → SolverResult)
    (students : List Student) (caps : List (String × Int)) (opts : Options)
    (M : Model)
    (h1 : doc.students = some students) (h2 : doc.capacities = some caps)
    (h3 : doc.options = some opts)
    (hb : BaseAssign.buildModel students caps (opts.minTeamSize.getD 0) =
      Except.ok M) :
    BaseAssign.assign doc solver =
      (if (solver M).status = GRB.OPTIMAL ∨ (solver M).status = GRB.SUBOPTIMAL then
        Except.ok (BaseAssign.extract students (solver M))
      else Except.ok (degradedOutput students (solver M).status)) := by
  obtain ⟨ds, dc, dop⟩ := doc
  cases ds with
  | none => exact absurd h1 (by simp)
  | some students0 =>
    cases dc with
    | none => exact absurd h2 (by simp)
    | some caps0 =>
      cases dop with
      | none => exact absurd h3 (by simp)
      | some opts0 =>
        have e1 : students0 = students := by injection h1
        have e2 : caps0 = caps := by injection h2
        have e3 : opts0 = opts := by injection h3
        subst e1; subst e2; subst e3
        show (match BaseAssign.buildModel students0 caps0 (opts0.minTeamSize.getD 0) with
          | Except.error e => Except.error e
          | Except.ok M =>
            let r := solver M
            if r.status = GRB.OPTIMAL ∨ r.status = GRB.SUBOPTIMAL then
              Except.ok (BaseAssign.extract students0 r)
            else
              Except.ok (degradedOutput students0 r.status)) = _
        rw [hb]

theorem BaseAssign.assign_error_base (doc : Doc) (solver : Model → SolverResult)
    (students : List Student) (caps : List (String × Int)) (opts : Options)
    (e : String)
    (h1 : doc.students = some students) (h2 : doc.capacities = some caps)
    (h3 : doc.options = some opts)
    (hb : BaseAssign.buildModel students caps (opts.minTeamSize.getD 0) =
      Except.error e) :
    BaseAssign.assign doc solver = Except.error e := by
  obtain ⟨ds, dc, dop⟩ := doc
  cases ds with
  | none => exact absurd h1 (by simp)
  | some students0 =>
    cases dc with
    | none => exact absurd h2 (by simp)
    | some caps0 =>
      cases dop with
      | none => exact absurd h3 (by simp)
      | some opts0 =>
        have e1 : students0 = students := by injection h1
        have e2 : caps0 = caps := by injection h2
        have e3 : opts0 = opts := by injection h3
        subst e1; subst e2; subst e3
        show (match BaseAssign.buildModel students0 caps0 (opts0.minTeamSize.getD 0) with
          | Except.error e => Except.error e
          | Except.ok M =>
            let r := solver M
            if r.status = GRB.OPTIMAL ∨ r.status = GRB.SUBOPTIMAL then
              Except.ok (BaseAssign.extract students0 r)
            else
              Except.ok (degradedOutput students0 r.status)) = _
        rw [hb]

theorem extract_eq_of_exactlyOne (students : List Student) (r : SolverResult)
    (hsat : ∀ st ∈ students,
      satisfies r.val (exactlyOneConstr students st.prefId) = true) :
    ExtAssign.extract students r = BaseAssign.extract students r := by
  have hone : ∀ st ∈ students,
      ExtAssign.extractOne students r.val st =
        BaseAssign.extractOne students r.val st := by
    intro st hst
    unfold ExtAssign.extractOne BaseAssign.extractOne
    cases hf : (choicesOf students st.prefId).find?
        (fun c => r.val (VarKey.x st.prefId c.projectId)) with
    | some c => rfl
    | none =>
      have hallfalse : ∀ c ∈ choicesOf students st.prefId,
          r.val (VarKey.x st.prefId c.projectId) = false := by
        intro c hc
        have hnt := List.find?_eq_none.mp hf c hc
        cases hv : r.val (VarKey.x st.prefId c.projectId)
        · rfl
        · exact absurd hv hnt
      have h1 := (satisfies_eq_iff r.val _ _).mp (hsat st hst)
      rw [evalTerms_append, evalTerms_single, evalTerms_map_one, one_mul] at h1
      have h0 : ((choicesOf students st.prefId).map
          (fun c => b2i (r.val (VarKey.x st.prefId c.projectId)))).sum = 0 :=
        (sum_b2i_eq_zero_iff _ _).mpr hallfalse
      have hu : r.val (VarKey.u st.prefId) = true := by
        rw [h0] at h1
        have hb1 : b2i (r.val (VarKey.u st.prefId)) = 1 := by omega
        exact (b2i_true_iff _).mp hb1
      rw [hu]
      rfl
  unfold ExtAssign.extract BaseAssign.extract
  have hL : students.filterMap
      (fun st => (ExtAssign.extractOne students r.val st).getLeft?) =
      students.filterMap
        (fun st => (BaseAssign.extractOne students r.val st).getLeft?) := by
    apply List.filterMap_congr
    intro st hst
    rw [hone st hst]
  have hR : students.filterMap
      (fun st => (ExtAssign.extractOne students r.val st).getRight?) =
      students.filterMap
        (fun st => (BaseAssign.extractOne students r.val st).getRight?) := by
    apply List.filterMap_congr
    intro st hst
    rw [hone st hst]
  rw [hL, hR]

/-- C10 (amended): when the section universe is empty, both variants build
literally the same optimization model, and — provided the solver's valuation
satisfies the model whenever it reports an accepted status — both `assign`
functions return identical output documents.  (The feasibility proviso is
necessary: the two files' defensive inconsistent-solution reason strings
differ, as the counterexample shows.) -/
theorem C10_base_equals_ext_on_empty_sections (doc : Doc)
    (solver : Model → SolverResult) (students : List Student)
    (caps : List (String × Int)) (opts : Options)
    (h1 : doc.students = some students) (h2 : doc.capacities = some caps)
    (h3 : doc.options = some opts)
    (hsec : sectionUniverse students = [])
    (hsolver : ∀ M : Model, ((solver M).status = GRB.OPTIMAL ∨
      (solver M).status = GRB.SUBOPTIMAL) →
      feasibleB M (solver M).val = true) :
    BaseAssign.buildModel students caps (opts.minTeamSize.getD 0) =
      ExtAssign.buildModel students caps (opts.minTeamSize.getD 0)
        (opts.maxSectionsPerTeam.getD 1) ∧
    ExtAssign.assign doc solver = BaseAssign.assign doc solver := by
  have hbeq : BaseAssign.buildModel students caps (opts.minTeamSize.getD 0) =
      ExtAssign.buildModel students caps (opts.minTeamSize.getD 0)
        (opts.maxSectionsPerTeam.getD 1) := by
    cases hw : maxWeightOf students with
    | error e =>
      unfold BaseAssign.buildModel ExtAssign.buildModel
      rw [hw]
    | ok w =>
      rw [BaseAssign.buildModel_ok_base students caps (opts.minTeamSize.getD 0) w hw,
        ExtAssign.buildModel_ok_ext students caps (opts.minTeamSize.getD 0)
          (opts.maxSectionsPerTeam.getD 1) w hw]
      rw [hsec]
      simp
  refine ⟨hbeq, ?_⟩
  cases hbm : BaseAssign.buildModel students caps (opts.minTeamSize.getD 0) with
  | error e =>
    have hbm2 : ExtAssign.buildModel students caps (opts.minTeamSize.getD 0)
        (opts.maxSectionsPerTeam.getD 1) = Except.error e := by
      rw [← hbeq]
      exact hbm
    rw [ExtAssign.assign_error_ext doc solver students caps opts e h1 h2 h3 hbm2,
      BaseAssign.assign_error_base doc solver students caps opts e h1 h2 h3 hbm]
  | ok M =>
    have hbm2 : ExtAssign.buildModel students caps (opts.minTeamSize.getD 0)
        (opts.maxSectionsPerTeam.getD 1) = Except.ok M := by
      rw [← hbeq]
      exact hbm
    rw [ExtAssign.assign_cases_ext doc solver students caps opts M h1 h2 h3 hbm2,
      BaseAssign.assign_cases_base doc solver students caps opts M h1 h2 h3 hbm]
    by_cases hst : (solver M).status = GRB.OPTIMAL ∨
        (solver M).status = GRB.SUBOPTIMAL
    · rw [if_pos hst, if_pos hst]
      have hfeas := hsolver M hst
      have hall := (feasibleB_iff M (solver M).val).mp hfeas
      have hsat : ∀ st ∈ students,
          satisfies (solver M).val (exactlyOneConstr students st.prefId) = true := by
        intro st hst2
        refine hall _ ?_
        cases hw : maxWeightOf students with
        | error e =>
          unfold BaseAssign.buildModel at hbm
          rw [hw] at hbm
          exact absurd hbm (by simp)
        | ok w =>
          rw [BaseAssign.buildModel_ok_base students caps (opts.minTeamSize.getD 0) w hw]
            at hbm
          have hMc : M.constrs = assignConstrsOf students ++
              capacityConstrsOf students caps (opts.minTeamSize.getD 0) := by
            have h := Except.ok.inj hbm
            rw [← h]
          rw [hMc]
          exact List.mem_append_left _
            (exactlyOne_mem_assignConstrs students st hst2)
      rw [extract_eq_of_exactlyOne students (solver M) hsat]
    · rw [if_neg hst, if_neg hst]

/-- Witness for the amended C10 at the one-student no-section document with
a solver whose status is never accepted (the feasibility proviso holds
vacuously). -/
theorem C10_base_equals_ext_on_empty_sections_witness :
    BaseAssign.buildModel [st1] [("P1", 1)] 0 =
      ExtAssign.buildModel [st1] [("P1", 1)] 0 1 ∧
    ExtAssign.assign doc1 solverInfeasible =
      BaseAssign.assign doc1 solverInfeasible :=
  C10_base_equals_ext_on_empty_sections doc1 solverInfeasible [st1] [("P1", 1)]
    ⟨none, none⟩ rfl rfl rfl rfl
    (fun M h => by
      rcases h with h | h <;>
        simp [solverInfeasible, GRB.OPTIMAL, GRB.SUBOPTIMAL] at h)
